import Mathlib

/-! # php-fpm-exporter: the collector

A shallow embedding of `pkg/php-fpm-exporter/collector/collector.go` and of the
Go library functions it calls (`strings.Split`, `strings.TrimSpace`,
`strconv.Atoi`, `prometheus.BuildFQName`, `prometheus.NewConstMetric`).

Conventions of the embedding:

* Text handled by the parser (the fetched body, blocks, lines, keys, values) is
  a `List Char`: the status report is taken to be valid UTF-8, so that a Go
  string is the list of its code points.  The separators `"\n"`, `":"` and
  `"******"` are ASCII, so splitting by bytes and by code points agree.
* Metric names, help texts and label names are Lean `String`s.
* A channel `ch chan<- prometheus.Metric` is the list of the metrics sent to
  it, in the order of the sends.
* A metric value is a `float64`.  Every value the collector sends is the
  conversion of an `int`, hence an integer-valued double, and is kept as that
  integer: `float64 v` is `v` rounded to the nearest double (`float64_exact`:
  `v` itself up to `2 ^ 53` in absolute value).  The failure count is at most
  the number of failed cycles, far below `2 ^ 53`, and is sent as it is.
* Go `int` is 64 bits wide (`strconv.IntSize = 64`).
-/

namespace PhpFpmExporter

/-! ## Go `strings` -/

/-- A Go string of valid UTF-8, as the list of its code points. -/
abbrev GoString := List Char

/-- The function `strings.Index(s, sep)`: the position of the first occurrence of `sep`
in `s`, `none` for Go's `-1`. -/
def Index (s sep : GoString) : Option Nat :=
  if sep.isPrefixOf s then some 0
  else
    match s with
    | [] => none
    | _ :: cs => (Index cs sep).map (· + 1)

/-- The loop of `strings.genSplit`: cut at the first separator, continue with the
rest; `n` bounds the number of cuts. -/
def splitLoop : Nat → GoString → GoString → List GoString
  | 0, s, _ => [s]
  | n + 1, s, sep =>
    match Index s sep with
    | none => [s]
    | some m => s.take m :: splitLoop n (s.drop (m + sep.length)) sep

/-- The function `strings.Split(s, sep)`.  With an empty separator Go explodes the string
into its code points; otherwise it cuts at every non-overlapping occurrence of
the separator, from the left.  Go bounds the loop by `Count(s, sep)`; every cut
removes at least one character, so `s.length` cuts are never exceeded
(`splitLoop_fuel`). -/
def Split (s sep : GoString) : List GoString :=
  if sep = [] then s.map (fun c => [c]) else splitLoop s.length s sep

/-- The predicate `unicode.IsSpace`: the code points with the White_Space property. -/
def isSpace (c : Char) : Bool :=
  let n := c.toNat
  n == 0x20 || (0x09 ≤ n && n ≤ 0x0D) || n == 0x85 || n == 0xA0 || n == 0x1680 ||
    (0x2000 ≤ n && n ≤ 0x200A) || n == 0x2028 || n == 0x2029 || n == 0x202F ||
    n == 0x205F || n == 0x3000

/-- The function `strings.TrimSpace(s)`: `s` without its leading and trailing white space. -/
def TrimSpace (s : GoString) : GoString :=
  ((s.dropWhile isSpace).reverse.dropWhile isSpace).reverse

/-! ## Go `strconv` -/

/-- The value of an ASCII decimal digit, `none` for any other character. -/
def digitVal (c : Char) : Option Nat :=
  if '0'.toNat ≤ c.toNat ∧ c.toNat ≤ '9'.toNat then some (c.toNat - '0'.toNat) else none

/-- The digit loop of `strconv.ParseUint(s, 10, _)`, without the overflow check. -/
def parseDigits : GoString → Nat → Option Nat
  | [], acc => some acc
  | c :: cs, acc =>
    match digitVal c with
    | none => none
    | some d => parseDigits cs (acc * 10 + d)

/-- The bit-size of Go's `int`. -/
def intSize : Nat := 64

/-- The function `strconv.Atoi(s)`, `none` when Go returns an error.  An optional sign, then at
least one decimal digit and nothing else; a value outside the range of `int` is
a range error. -/
def Atoi (s : GoString) : Option Int :=
  match s with
  | [] => none
  | c :: cs =>
    let neg := c == '-'
    let digits := if c == '-' || c == '+' then cs else c :: cs
    match digits with
    | [] => none
    | _ :: _ =>
      match parseDigits digits 0 with
      | none => none
      | some un =>
        if neg then
          if un ≤ 2 ^ (intSize - 1) then some (-(un : Int)) else none
        else
          if un < 2 ^ (intSize - 1) then some (un : Int) else none

/-! ## Go conversions -/

/-- The number of binary digits of `n`, with fuel for the halvings. -/
def bitLengthAux : Nat → Nat → Nat
  | 0, _ => 0
  | fuel + 1, n => if n = 0 then 0 else bitLengthAux fuel (n / 2) + 1

/-- The number of binary digits of `n` (`bits.Len`). -/
def bitLength (n : Nat) : Nat :=
  bitLengthAux n n

/-- The conversion `float64(v)` of an `int`: `v` rounded to 53 significant binary digits, to
the nearest such value and to the one with an even last digit in a tie.  The
result is an integer-valued double and is given as that integer. -/
def float64 (v : Int) : Int :=
  let a := v.natAbs
  if a < 2 ^ 53 then v
  else
    let shift := bitLength a - 53
    let q := a / 2 ^ shift
    let r := a % 2 ^ shift
    let half := 2 ^ (shift - 1)
    let q' := if half < r ∨ (r = half ∧ q % 2 = 1) then q + 1 else q
    if v < 0 then -((q' * 2 ^ shift : Nat) : Int) else ((q' * 2 ^ shift : Nat) : Int)

/-! ## prometheus client -/

/-- The type `prometheus.Labels`: label names with their values. -/
abbrev Labels := List (String × String)

/-- The type `prometheus.Desc`, as the tuple of fully-qualified name, help text, variable
label names and constant labels.  The descriptors of a collector that
`exporter.Run` serves have passed `prometheus.Register`, so the validation error
a `Desc` can carry is absent. -/
structure Desc where
  fqName : String
  help : String
  variableLabels : List String
  constLabels : Labels
  deriving DecidableEq

/-- The type `prometheus.ValueType`. -/
inductive ValueType where
  | CounterValue
  | GaugeValue
  | UntypedValue
  deriving DecidableEq

/-- The type `prometheus.SummaryOpts` after `NewSummary` has built the descriptor, together
with the values observed so far.  An objective `(q, e)` stands for quantile
`q / 1000` with tolerance `e / 1000`. -/
structure Summary where
  desc : Desc
  objectives : List (Nat × Nat)
  observations : List Int
  deriving DecidableEq

/-- The method `Summary.Observe(v)`: one more observation, an integer-valued double. -/
def Summary.Observe (s : Summary) (v : Int) : Summary :=
  { s with observations := s.observations ++ [v] }

/-- A `prometheus.Metric` as the collector produces it: a constant metric or a
summary. -/
inductive Metric where
  | constMetric (desc : Desc) (valueType : ValueType) (value : Int) (labelValues : List String)
  | summary (s : Summary)
  deriving DecidableEq

/-- The descriptor a metric carries (`Metric.Desc()`). -/
def Metric.desc : Metric → Desc
  | .constMetric d _ _ _ => d
  | .summary s => s.desc

/-- The function `prometheus.BuildFQName(namespace, subsystem, name)`. -/
def BuildFQName (ns subsystem name : String) : String :=
  if name = "" then ""
  else if ns ≠ "" ∧ subsystem ≠ "" then ns ++ "_" ++ subsystem ++ "_" ++ name
  else if ns ≠ "" then ns ++ "_" ++ name
  else if subsystem ≠ "" then subsystem ++ "_" ++ name
  else name

/-- The function `prometheus.NewDesc(fqName, help, variableLabels, constLabels)`. -/
def NewDesc (fqName help : String) (variableLabels : List String) (constLabels : Labels) : Desc :=
  { fqName := fqName, help := help, variableLabels := variableLabels, constLabels := constLabels }

/-- The function `prometheus.NewConstMetric(desc, valueType, value, labelValues...)`: an error
(`none`) when the number of label values differs from the number of variable
labels of the descriptor. -/
def NewConstMetric (desc : Desc) (valueType : ValueType) (value : Int)
    (labelValues : List String) : Option Metric :=
  if labelValues.length = desc.variableLabels.length then
    some (.constMetric desc valueType value labelValues)
  else none

/-- The function `prometheus.MustNewConstMetric`: `NewConstMetric`, panicking (`none`) on an
error. -/
def MustNewConstMetric (desc : Desc) (valueType : ValueType) (value : Int)
    (labelValues : List String) : Option Metric :=
  NewConstMetric desc valueType value labelValues

/-- The function `prometheus.NewSummary(opts)` with only `Name`, `Help`, `Objectives` and
`ConstLabels` set, as `processWorkers` calls it. -/
def NewSummary (name help : String) (objectives : List (Nat × Nat)) (constLabels : Labels) :
    Summary :=
  { desc := NewDesc (BuildFQName "" "" name) help [] constLabels
    objectives := objectives
    observations := [] }

/-! ## fetcher -/

/-- A `*url.URL`, kept as text. -/
abbrev URL := String

/-- What a fetch returns: `([]byte, error)`. -/
structure FetchResult where
  body : GoString
  err : Option String
  deriving DecidableEq

/-- The interface `fetcher.DataFetcher`, as its behaviour during one collection cycle. -/
structure DataFetcher where
  GetDataHttp : Option URL → FetchResult
  GetDataFastCgi : Option URL → FetchResult

/-- A call of a `DataFetcher` method with its argument. -/
inductive FetchCall where
  | GetDataHttp (u : Option URL)
  | GetDataFastCgi (u : Option URL)
  deriving DecidableEq

/-! ## collector -/

/-- The struct `collector.Config`. -/
structure Config where
  Namespace : String
  HttpEndpoint : Option URL
  FcgiEndpoint : Option URL
  ConstLabels : Labels
  deriving DecidableEq

/-- The struct `collector.descs`.  The only operation on `failureCount`, a Go `int`, is the
increment by one of a failed cycle; it starts at zero and overflow is out of
reach (it takes `2 ^ 63` failed cycles), so the count is kept as a natural
number. -/
structure descs where
  up : Desc
  acceptedConn : Desc
  listenQueue : Desc
  maxListenQueue : Desc
  listenQueueLength : Desc
  phpProcesses : Desc
  maxActiveProcesses : Desc
  maxChildrenReached : Desc
  slowRequests : Desc
  scrapeFailures : Desc
  requestsSummary : Desc
  lifetimeSummary : Desc
  failureCount : Nat
  deriving DecidableEq

/-- The struct `collector.Collector`.  The fetcher is handed to `Collect` as its behaviour
during the cycle; the logger has no effect on the metrics and is left out. -/
structure Collector where
  descs : descs
  config : Config
  deriving DecidableEq

/-- The method `Collector.newFuncMetric`. -/
def newFuncMetric (config : Config) (metricName docString : String) (labels : List String) :
    Desc :=
  NewDesc (BuildFQName config.Namespace "" metricName) docString labels config.ConstLabels

/-- The method `Collector.initDescs`: the twelve descriptors, and a failure count of zero. -/
def initDescs (config : Config) : descs :=
  { up := newFuncMetric config "up" "able to contact php-fpm" []
    acceptedConn := newFuncMetric config "accepted_connections_total"
      "Total number of accepted connections" []
    listenQueue := newFuncMetric config "listen_queue_connections"
      "Number of connections that have been initiated but not yet accepted" []
    maxListenQueue := newFuncMetric config "listen_queue_max_connections"
      "Max number of connections the listen queue has reached since FPM start" []
    listenQueueLength := newFuncMetric config "listen_queue_length_connections"
      "The length of the socket queue, dictating maximum number of pending connections" []
    phpProcesses := newFuncMetric config "processes_total" "process count" ["state"]
    maxActiveProcesses := newFuncMetric config "active_max_processes"
      "Maximum active process count" []
    maxChildrenReached := newFuncMetric config "max_children_reached_total"
      "Number of times the process limit has been reached" []
    slowRequests := newFuncMetric config "slow_requests_total"
      "Number of requests that exceed request_slowlog_timeout" []
    scrapeFailures := newFuncMetric config "scrape_failures_total"
      "Number of errors while scraping php_fpm" []
    requestsSummary := newFuncMetric config "workers_requests_summary"
      "Summary of requests process by workers" []
    lifetimeSummary := newFuncMetric config "workers_lifetime_summary"
      "Workers lifetime summary" []
    failureCount := 0 }

/-- The function `collector.NewCollector`. -/
def NewCollector (config : Config) : Collector :=
  { descs := initDescs config, config := config }

/-- The collector built from `config` once its failure count has reached `n`. -/
def collectorAt (config : Config) (n : Nat) : Collector :=
  { descs := { initDescs config with failureCount := n }, config := config }

/-- The method `Collector.getMetricName`. -/
def getMetricName (c : Collector) (name : String) : String :=
  BuildFQName c.config.Namespace "" name

/-- The method `Collector.Describe`: the descriptors sent to the channel, in order. -/
def Describe (c : Collector) : List Desc :=
  [c.descs.up, c.descs.scrapeFailures, c.descs.acceptedConn, c.descs.listenQueue,
   c.descs.maxListenQueue, c.descs.listenQueueLength, c.descs.phpProcesses,
   c.descs.maxActiveProcesses, c.descs.maxChildrenReached, c.descs.slowRequests,
   c.descs.requestsSummary, c.descs.lifetimeSummary]

/-- The first loop of `processPool` and of `processWorkers`: the rows that split on `":"`
into exactly two parts, as the trimmed pair. -/
def parseRows (statStrings : List GoString) : List (GoString × GoString) :=
  statStrings.filterMap fun row =>
    match Split row [':'] with
    | [k, v] => some (TrimSpace k, TrimSpace v)
    | _ => none

/-- The `switch key` of `processPool`: descriptor, value type and label values, `none` for
the `default: continue` branch. -/
def poolSwitch (d : descs) (key : String) : Option (Desc × ValueType × List String) :=
  match key with
  | "accepted conn" => some (d.acceptedConn, .CounterValue, [])
  | "listen queue" => some (d.listenQueue, .GaugeValue, [])
  | "max listen queue" => some (d.maxListenQueue, .CounterValue, [])
  | "listen queue len" => some (d.listenQueueLength, .GaugeValue, [])
  | "idle processes" => some (d.phpProcesses, .GaugeValue, ["idle"])
  | "active processes" => some (d.phpProcesses, .GaugeValue, ["active"])
  | "max active processes" => some (d.maxActiveProcesses, .CounterValue, [])
  | "max children reached" => some (d.maxChildrenReached, .CounterValue, [])
  | "slow requests" => some (d.slowRequests, .CounterValue, [])
  | _ => none

/-- The body of the second loop of `processPool` for one parsed row: the metric sent to the
channel, `none` when the iteration ends in a `continue`. -/
def poolMetric (c : Collector) (row : GoString × GoString) : Option Metric :=
  match Atoi row.2 with
  | none => none
  | some value =>
    match poolSwitch c.descs (String.mk row.1) with
    | none => none
    | some (desc, valueType, labels) => NewConstMetric desc valueType (float64 value) labels

/-- The method `Collector.processPool(body, ch)`: the metrics sent to `ch`. -/
def processPool (c : Collector) (body : GoString) : List Metric :=
  (parseRows (Split body ['\n'])).filterMap (poolMetric c)

/-- The quantile objectives both worker summaries are built with. -/
def summaryObjectives : List (Nat × Nat) := [(500, 50), (750, 25), (900, 10), (990, 1)]

/-- The body of the second loop of `processWorkers` for one parsed row, on the pair
(lifetime summary, requests summary).  The locals `started`, `sum` and
`requestsTotal` are written but never read and are left out. -/
def workerObserve (st : Summary × Summary) (row : GoString × GoString) : Summary × Summary :=
  match Atoi row.2 with
  | none => st
  | some value =>
    match String.mk row.1 with
    | "start since" => (st.1.Observe (float64 value), st.2)
    | "requests" => (st.1, st.2.Observe (float64 value))
    | _ => st

/-- The method `Collector.processWorkers(workers, ch)`: the metrics sent to `ch`. -/
def processWorkers (c : Collector) (workers : List GoString) : List Metric :=
  let requestsSummary := NewSummary (getMetricName c "workers_requests_summary")
    "summary of requests processed by workers" summaryObjectives [("pool", "www")]
  let lifetimeSummary := NewSummary (getMetricName c "workers_lifetime_summary")
    "summary of workers lifetime" summaryObjectives [("pool", "www")]
  let st := workers.foldl
    (fun st worker => (parseRows (Split worker ['\n'])).foldl workerObserve st)
    (lifetimeSummary, requestsSummary)
  [.summary st.1, .summary st.2]

/-- What one call of `Collect` leaves behind: the collector, the fetcher calls it made and
the metrics it sent to `ch`. -/
structure CollectResult where
  collector : Collector
  calls : List FetchCall
  ch : List Metric
  deriving DecidableEq

/-- The fetch of `Collect`: the FastCGI endpoint when one is configured, the HTTP endpoint
otherwise.  Returns the call made and what it returned. -/
def fetch (c : Collector) (fetcher : DataFetcher) : FetchCall × FetchResult :=
  match c.config.FcgiEndpoint with
  | some u => (.GetDataFastCgi (some u), fetcher.GetDataFastCgi (some u))
  | none => (.GetDataHttp c.config.HttpEndpoint, fetcher.GetDataHttp c.config.HttpEndpoint)

/-- The method `Collector.Collect(ch)`, `none` when the Go code panics (a failing
`MustNewConstMetric`, or an index out of range at `blocks[0]`).  The values
`1.0`, `0.0` and `float64(c.descs.failureCount)` are the integers 1, 0 and the
count. -/
def Collect (c : Collector) (fetcher : DataFetcher) : Option CollectResult :=
  let fetched := fetch c fetcher
  let body := fetched.2.body
  let failed := fetched.2.err.isSome
  let up : Int := if failed then 0 else 1
  let c1 : Collector :=
    if failed then { c with descs := { c.descs with failureCount := c.descs.failureCount + 1 } }
    else c
  match MustNewConstMetric c1.descs.up .GaugeValue up [] with
  | none => none
  | some mUp =>
    match MustNewConstMetric c1.descs.scrapeFailures .CounterValue c1.descs.failureCount [] with
    | none => none
    | some mFailures =>
      if up = 0 then
        some { collector := c1, calls := [fetched.1], ch := [mUp, mFailures] }
      else
        match Split body "******".toList with
        | [] => none
        | pool :: workers =>
          some { collector := c1, calls := [fetched.1],
                 ch := [mUp, mFailures] ++ processPool c1 pool ++ processWorkers c1 workers }

/-! ## Auxiliary definitions for the lemmas on `Split` -/

/-- Put `c` in front of the first piece of a split. -/
def consHead (c : Char) : List GoString → List GoString
  | [] => [[c]]
  | h :: t => (c :: h) :: t

/-- The text after the first `d` of `s` (empty when there is none). -/
def afterFirst (d : Char) (s : GoString) : GoString :=
  (s.dropWhile (· != d)).drop 1

/-! ## The specification's vocabulary -/

/-- The function `strings.Join(elems, sep)`. -/
def Join (sep : GoString) : List GoString → GoString
  | [] => []
  | [x] => x
  | x :: y :: rest => x ++ sep ++ Join sep (y :: rest)

/-- A block made of the given lines: the lines joined by newlines. -/
def joinLines (lines : List GoString) : GoString :=
  Join ['\n'] lines

/-- The text before the first occurrence of `sep` in `s` (all of `s` when there is
none). -/
def beforeFirst (sep : GoString) : GoString → GoString
  | [] => []
  | c :: cs => if sep.isPrefixOf (c :: cs) then [] else c :: beforeFirst sep cs

/-- A field of the specification (§3, §4.2): the `(key, integer)` pair of a line that splits
on the colon into exactly two parts, the value of which, trimmed, parses as an
integer. -/
def parseField (line : GoString) : Option (String × Int) :=
  match Split line [':'] with
  | [k, v] =>
    match Atoi (TrimSpace v) with
    | some n => some (String.mk (TrimSpace k), n)
    | none => none
  | _ => none

/-- The fields of a block, in the order of its lines. -/
def fields (block : GoString) : List (String × Int) :=
  (Split block ['\n']).filterMap parseField

/-- A row of the mapping table of the specification (§4.3). -/
structure TableRow where
  key : String
  identity : String
  kind : ValueType
  label : Option (String × String)
  deriving DecidableEq

/-- The pool-summary mapping table of the specification (§4.3). -/
def mappingTable : List TableRow :=
  [ ⟨"accepted conn", "accepted_connections_total", .CounterValue, none⟩,
    ⟨"listen queue", "listen_queue_connections", .GaugeValue, none⟩,
    ⟨"max listen queue", "listen_queue_max_connections", .CounterValue, none⟩,
    ⟨"listen queue len", "listen_queue_length_connections", .GaugeValue, none⟩,
    ⟨"idle processes", "processes_total", .GaugeValue, some ("state", "idle")⟩,
    ⟨"active processes", "processes_total", .GaugeValue, some ("state", "active")⟩,
    ⟨"max active processes", "active_max_processes", .CounterValue, none⟩,
    ⟨"max children reached", "max_children_reached_total", .CounterValue, none⟩,
    ⟨"slow requests", "slow_requests_total", .CounterValue, none⟩ ]

/-- What the sink is told about a single-valued metric: identity (the fully-qualified
name), value kind, labels and value. -/
structure Observation where
  identity : String
  kind : ValueType
  labels : List (String × String)
  value : Int
  deriving DecidableEq

/-- The observation with its value as the sink receives it: converted to `float64`. -/
def Observation.sent (o : Observation) : Observation :=
  { o with value := float64 o.value }

/-- The observation a metric makes; a summary makes none of this shape. -/
def Metric.observation : Metric → Option Observation
  | .constMetric d k v ls =>
    some { identity := d.fqName, kind := k, labels := d.variableLabels.zip ls, value := v }
  | .summary _ => none

/-- The observation the mapping table prescribes for a line, under namespace `ns`, with
the parsed integer as value: none when the line is not a field or its key is not
in the table. -/
def tableObservation (ns : String) (line : GoString) : Option Observation :=
  match parseField line with
  | none => none
  | some (key, n) =>
    match mappingTable.find? (fun row => key == row.key) with
    | none => none
    | some row =>
      some { identity := BuildFQName ns "" row.identity, kind := row.kind,
             labels := row.label.toList, value := n }

/-- A malformed line, in the words of the specification (§8): no colon, two or more
colons, a value (the text after the colon) that does not parse as an integer, or
the empty line. -/
def Malformed (line : GoString) : Prop :=
  line.count ':' = 0 ∨ 2 ≤ line.count ':' ∨ Atoi (TrimSpace (afterFirst ':' line)) = none ∨
    line = []

instance (line : GoString) : Decidable (Malformed line) := by
  unfold Malformed
  infer_instance

/-- The values of the fields keyed `key`, in order. -/
def valuesOf (key : String) (fs : List (String × Int)) : List Int :=
  (fs.filter (fun f => f.1 == key)).map (·.2)

/-- The values the lifetime summary is to observe: those of the fields keyed
`start since`, block by block, line by line. -/
def lifetimeValues (workers : List GoString) : List Int :=
  valuesOf "start since" (workers.flatMap fields)

/-- The values the requests summary is to observe: those of the fields keyed
`requests`, block by block, line by line. -/
def requestsValues (workers : List GoString) : List Int :=
  valuesOf "requests" (workers.flatMap fields)

/-- The one fetch the specification (§4.4) gives a cycle: the FastCGI method at the FastCGI
endpoint when one is configured, the HTTP method at the HTTP endpoint otherwise. -/
def configuredFetch (config : Config) (fetcher : DataFetcher) : FetchResult :=
  match config.FcgiEndpoint with
  | some u => fetcher.GetDataFastCgi (some u)
  | none => fetcher.GetDataHttp config.HttpEndpoint

/-- A fetcher both methods of which return `res`. -/
def fetcherReturning (res : FetchResult) : DataFetcher :=
  { GetDataHttp := fun _ => res, GetDataFastCgi := fun _ => res }

/-- Whether the fetch `Collect` makes with this fetcher fails. -/
def fetchFails (c : Collector) (fetcher : DataFetcher) : Bool :=
  (fetch c fetcher).2.err.isSome

/-- Successive collection cycles, one per fetcher behaviour; `none` when a cycle
panics. -/
def runCycles : List DataFetcher → Collector → Option Collector
  | [], c => some c
  | f :: fs, c =>
    match Collect c f with
    | none => none
    | some r => runCycles fs r.collector

/-- The field a parsed row stands for: the key with the integer value, if the value
is one. -/
def rowField (row : GoString × GoString) : Option (String × Int) :=
  match Atoi row.2 with
  | some n => some (String.mk row.1, n)
  | none => none

/-- A summary after it has observed the values `vs`, in order. -/
def Summary.observeAll (s : Summary) (vs : List Int) : Summary :=
  { s with observations := s.observations ++ vs }

/-- A configuration as `exporter.EasyFactory` builds it, for the environment
`namespace=phpfpm`, `fastcgi=tcp://127.0.0.1:9000/status`. -/
def exampleConfig : Config :=
  { Namespace := "phpfpm"
    HttpEndpoint := some "http://127.0.0.1/metrics"
    FcgiEndpoint := some "tcp://127.0.0.1:9000/status"
    ConstLabels := [("hello", "world")] }

/-! ## Concurrent cycles

`Collect` updates the failure count with the statement `c.descs.failureCount++`:
a read of the field followed by a write of the value read plus one.  The
collector holds no mutex and uses no atomic operation, so when the registry runs
several cycles on one collector at once, nothing orders the reads and writes of
different goroutines: they interleave freely. -/

/-- Where a goroutine that runs a failing cycle stands in `c.descs.failureCount++`:
the field not yet read, read as `v`, or written. -/
inductive IncState where
  | ready
  | loaded (v : Nat)
  | done
  deriving DecidableEq

/-- The failure count of the shared collector and the goroutines running failing cycles
on it. -/
structure Shared where
  failureCount : Nat
  goroutines : List IncState
  deriving DecidableEq

/-- One step of goroutine `i`: the read of the field, or the write of the value read plus
one; a goroutine that has written has no step left. -/
def stepGoroutine (s : Shared) (i : Nat) : Shared :=
  match s.goroutines[i]? with
  | some .ready =>
    { failureCount := s.failureCount
      goroutines := s.goroutines.set i (.loaded s.failureCount) }
  | some (.loaded v) =>
    { failureCount := v + 1
      goroutines := s.goroutines.set i .done }
  | _ => s

/-- The steps of a schedule, a list of goroutine numbers, in order. -/
def runSchedule (s : Shared) (schedule : List Nat) : Shared :=
  schedule.foldl stepGoroutine s

/-- The start: `count` failing cycles on a collector with failure count `n`, the fetch of each
of which has failed. -/
def startCycles (n count : Nat) : Shared :=
  { failureCount := n, goroutines := List.replicate count .ready }

/-- All goroutines have written. -/
def allDone (s : Shared) : Bool :=
  s.goroutines.all (· == .done)

/-- The schedule that runs goroutines `k`, `k + 1`, ..., `k + count - 1` one after
another. -/
def sequentialFrom : Nat → Nat → List Nat
  | _, 0 => []
  | k, count + 1 => k :: k :: sequentialFrom (k + 1) count

/-- What every reachable state of `count` concurrent failing cycles satisfies, `n` being
the failure count at the start. -/
def ConcInv (n count : Nat) (s : Shared) : Prop :=
  s.goroutines.length = count ∧
    n ≤ s.failureCount ∧
    s.failureCount ≤ n + s.goroutines.count .done ∧
    (0 < s.goroutines.count .done → n + 1 ≤ s.failureCount) ∧
    ∀ v, IncState.loaded v ∈ s.goroutines → n ≤ v ∧ v ≤ n + s.goroutines.count .done

/-! ## Lemmas on `Index` and `Split` -/

theorem Index_nil_of_ne_nil {sep : GoString} (h : sep ≠ []) : Index [] sep = none := by
  cases sep with
  | nil => exact absurd rfl h
  | cons a t => simp [Index, List.isPrefixOf]

theorem Index_le_length : ∀ (s sep : GoString) (m : Nat),
    Index s sep = some m → m + sep.length ≤ s.length := by
  intro s
  induction s with
  | nil =>
    intro sep m h
    unfold Index at h
    split at h
    · rename_i hp
      have := (List.isPrefixOf_iff_prefix.mp hp).length_le
      simp at h
      omega
    · simp at h
  | cons c cs ih =>
    intro sep m h
    unfold Index at h
    split at h
    · rename_i hp
      have := (List.isPrefixOf_iff_prefix.mp hp).length_le
      simp at h
      omega
    · simp only [Option.map_eq_some'] at h
      obtain ⟨k, hk, rfl⟩ := h
      have := ih sep k hk
      simp
      omega

/-- At the position `Index` returns, the separator starts. -/
theorem Index_some_eq : ∀ (s sep : GoString) (m : Nat),
    Index s sep = some m → s = s.take m ++ sep ++ s.drop (m + sep.length) := by
  intro s
  induction s with
  | nil =>
    intro sep m h
    unfold Index at h
    split at h
    · rename_i hp
      obtain ⟨t, ht⟩ := List.isPrefixOf_iff_prefix.mp hp
      simp at h
      subst h
      simp at ht
      simp [ht.1]
    · simp at h
  | cons c cs ih =>
    intro sep m h
    unfold Index at h
    split at h
    · rename_i hp
      obtain ⟨t, ht⟩ := List.isPrefixOf_iff_prefix.mp hp
      simp at h
      subst h
      simp only [List.take_zero, List.nil_append, Nat.zero_add]
      rw [← ht]
      simp
    · simp only [Option.map_eq_some'] at h
      obtain ⟨k, hk, rfl⟩ := h
      have := ih sep k hk
      simp only [List.take_succ_cons, List.cons_append]
      rw [show k + 1 + sep.length = (k + sep.length) + 1 by omega, List.drop_succ_cons]
      rw [List.append_assoc] at this
      rw [List.append_assoc, ← this]

/-- Enough fuel: any bound of at least `s.length` cuts gives the same split. -/
theorem splitLoop_fuel {sep : GoString} (hsep : sep ≠ []) : ∀ (n m : Nat) (s : GoString),
    s.length ≤ n → s.length ≤ m → splitLoop n s sep = splitLoop m s sep := by
  have hlen : 0 < sep.length := List.length_pos.mpr hsep
  intro n
  induction n with
  | zero =>
    intro m s hn _
    have hs : s = [] := List.length_eq_zero.mp (Nat.le_zero.mp hn)
    subst hs
    cases m with
    | zero => rfl
    | succ m => simp [splitLoop, Index_nil_of_ne_nil hsep]
  | succ n ih =>
    intro m s hn hm
    cases m with
    | zero =>
      have hs : s = [] := List.length_eq_zero.mp (Nat.le_zero.mp hm)
      subst hs
      simp [splitLoop, Index_nil_of_ne_nil hsep]
    | succ m =>
      simp only [splitLoop]
      cases hI : Index s sep with
      | none => rfl
      | some k =>
        have hk := Index_le_length s sep k hI
        simp only
        congr 1
        apply ih
        · simp; omega
        · simp; omega

theorem Split_of_Index_none {s sep : GoString} (hsep : sep ≠ []) (h : Index s sep = none) :
    Split s sep = [s] := by
  unfold Split
  rw [if_neg hsep]
  cases hl : s.length with
  | zero => rfl
  | succ n => simp [splitLoop, h]

theorem Split_of_Index_some {s sep : GoString} {m : Nat} (hsep : sep ≠ [])
    (h : Index s sep = some m) :
    Split s sep = s.take m :: Split (s.drop (m + sep.length)) sep := by
  have hlen : 0 < sep.length := List.length_pos.mpr hsep
  have hk := Index_le_length s sep m h
  unfold Split
  rw [if_neg hsep, if_neg hsep]
  cases hl : s.length with
  | zero => omega
  | succ n =>
    simp only [splitLoop, h]
    congr 1
    apply splitLoop_fuel hsep
    · simp; omega
    · exact Nat.le_refl _

theorem Split_ne_nil {s sep : GoString} (hsep : sep ≠ []) : Split s sep ≠ [] := by
  cases h : Index s sep with
  | none => rw [Split_of_Index_none hsep h]; simp
  | some m => rw [Split_of_Index_some hsep h]; simp

/-! ### A separator of one character -/

theorem Index_single_cons_eq (d : Char) (s : GoString) : Index (d :: s) [d] = some 0 := by
  unfold Index
  simp [List.isPrefixOf]

theorem Index_single_cons_ne {c d : Char} (h : c ≠ d) (s : GoString) :
    Index (c :: s) [d] = (Index s [d]).map (· + 1) := by
  conv_lhs => unfold Index
  have : ¬ (d = c) := fun e => h e.symm
  simp [List.isPrefixOf, this]

theorem Split_single_nil (d : Char) : Split [] [d] = [[]] := by
  rfl

theorem Split_single_cons_eq (d : Char) (s : GoString) :
    Split (d :: s) [d] = [] :: Split s [d] := by
  rw [Split_of_Index_some (by simp) (Index_single_cons_eq d s)]
  simp

theorem Split_single_cons_ne {c d : Char} (h : c ≠ d) (s : GoString) :
    Split (c :: s) [d] = consHead c (Split s [d]) := by
  cases hI : Index s [d] with
  | none =>
    have h1 : Index (c :: s) [d] = none := by rw [Index_single_cons_ne h, hI]; rfl
    rw [Split_of_Index_none (by simp) h1, Split_of_Index_none (by simp) hI]
    rfl
  | some m =>
    have h1 : Index (c :: s) [d] = some (m + 1) := by rw [Index_single_cons_ne h, hI]; rfl
    rw [Split_of_Index_some (by simp) h1, Split_of_Index_some (by simp) hI]
    simp [consHead]

theorem Split_single_of_not_mem {d : Char} : ∀ {s : GoString}, d ∉ s → Split s [d] = [s] := by
  intro s
  induction s with
  | nil => intro _; rfl
  | cons c cs ih =>
    intro h
    simp only [List.mem_cons, not_or] at h
    rw [Split_single_cons_ne (fun e => h.1 e.symm), ih h.2]
    rfl

/-- Splitting at a one-character separator distributes over an occurrence of it. -/
theorem Split_single_append (d : Char) : ∀ (a b : GoString),
    Split (a ++ d :: b) [d] = Split a [d] ++ Split b [d] := by
  intro a
  induction a with
  | nil => intro b; simp [Split_single_cons_eq, Split_single_nil]
  | cons c cs ih =>
    intro b
    by_cases h : c = d
    · subst h
      simp [Split_single_cons_eq, ih]
    · rw [List.cons_append, Split_single_cons_ne h, Split_single_cons_ne h, ih]
      cases hS : Split cs [d] with
      | nil => exact absurd hS (Split_ne_nil (by simp))
      | cons x t => simp [consHead]

theorem Split_single_length (d : Char) : ∀ (s : GoString),
    (Split s [d]).length = s.count d + 1 := by
  intro s
  induction s with
  | nil => rfl
  | cons c cs ih =>
    by_cases h : c = d
    · subst h
      simp [Split_single_cons_eq, ih]
    · rw [Split_single_cons_ne h]
      have hc : (c :: cs).count d = cs.count d := by
        rw [List.count_cons]
        have : ¬ ((c == d) = true) := by simpa using h
        simp [this]
      rw [hc, ← ih]
      cases hS : Split cs [d] with
      | nil => exact absurd hS (Split_ne_nil (by simp))
      | cons x t => simp [consHead]

/-- A text with exactly one `d` splits into the text before it and the text after it. -/
theorem Split_single_count_one (d : Char) : ∀ (s : GoString), s.count d = 1 →
    Split s [d] = [s.takeWhile (· != d), afterFirst d s] := by
  intro s
  induction s with
  | nil => intro h; simp at h
  | cons c cs ih =>
    intro h
    by_cases hcd : c = d
    · subst hcd
      have h0 : cs.count c = 0 := by simpa using h
      have hn : c ∉ cs := List.count_eq_zero.mp h0
      rw [Split_single_cons_eq, Split_single_of_not_mem hn]
      simp [afterFirst, List.takeWhile, List.dropWhile]
    · have hc : ¬ ((c == d) = true) := by simpa using hcd
      have h1 : cs.count d = 1 := by
        rw [List.count_cons] at h
        simpa [hc] using h
      rw [Split_single_cons_ne hcd, ih h1]
      have hne : (c != d) = true := by simpa using hcd
      simp [consHead, afterFirst, List.takeWhile, List.dropWhile, hne]

/-! ### The first piece and the way back -/

theorem beforeFirst_of_Index_none {sep : GoString} : ∀ {s : GoString},
    Index s sep = none → beforeFirst sep s = s := by
  intro s
  induction s with
  | nil => intro _; rfl
  | cons c cs ih =>
    intro h
    unfold Index at h
    split at h
    · simp at h
    · rename_i hp
      simp only [Option.map_eq_none'] at h
      simp [beforeFirst, hp, ih h]

theorem beforeFirst_of_Index_some {sep : GoString} : ∀ {s : GoString} {m : Nat},
    Index s sep = some m → beforeFirst sep s = s.take m := by
  intro s
  induction s with
  | nil => intro m _; simp [beforeFirst]
  | cons c cs ih =>
    intro m h
    unfold Index at h
    split at h
    · rename_i hp
      simp only [Option.some.injEq] at h
      subst h
      simp [beforeFirst, hp]
    · rename_i hp
      simp only [Option.map_eq_some'] at h
      obtain ⟨k, hk, rfl⟩ := h
      simp [beforeFirst, hp, ih hk]

/-- The first piece of a split is the text before the first separator. -/
theorem Split_head (s sep : GoString) (hsep : sep ≠ []) :
    ∃ rest, Split s sep = beforeFirst sep s :: rest := by
  cases h : Index s sep with
  | none => exact ⟨[], by rw [Split_of_Index_none hsep h, beforeFirst_of_Index_none h]⟩
  | some m => exact ⟨_, by rw [Split_of_Index_some hsep h, beforeFirst_of_Index_some h]⟩

theorem splitLoop_ne_nil (n : Nat) (s sep : GoString) : splitLoop n s sep ≠ [] := by
  cases n with
  | zero => simp [splitLoop]
  | succ n =>
    simp only [splitLoop]
    cases Index s sep <;> simp

theorem Join_splitLoop (sep : GoString) : ∀ (n : Nat) (s : GoString),
    Join sep (splitLoop n s sep) = s := by
  intro n
  induction n with
  | zero => intro s; rfl
  | succ n ih =>
    intro s
    simp only [splitLoop]
    cases h : Index s sep with
    | none => rfl
    | some m =>
      simp only
      cases hL : splitLoop n (s.drop (m + sep.length)) sep with
      | nil => exact absurd hL (splitLoop_ne_nil _ _ _)
      | cons y ys =>
        have := ih (s.drop (m + sep.length))
        rw [hL] at this
        simp only [Join, this]
        exact (Index_some_eq s sep m h).symm

/-- Joining the pieces of a split with the separator gives the text back. -/
theorem Join_Split (s sep : GoString) (hsep : sep ≠ []) : Join sep (Split s sep) = s := by
  unfold Split
  rw [if_neg hsep]
  exact Join_splitLoop sep _ s

/-! ### The conversion to `float64` -/

/-- Enough fuel: with at least `n` halvings allowed, the count is the number of binary
digits of `n`. -/
theorem bitLengthAux_spec : ∀ (fuel n : Nat), n ≤ fuel →
    n < 2 ^ bitLengthAux fuel n ∧ (0 < n → 2 ^ (bitLengthAux fuel n - 1) ≤ n) := by
  intro fuel
  induction fuel with
  | zero =>
    intro n hn
    have : n = 0 := by omega
    subst this
    simp [bitLengthAux]
  | succ fuel ih =>
    intro n hn
    by_cases h0 : n = 0
    · subst h0
      simp [bitLengthAux]
    · have hle : n / 2 ≤ fuel := by omega
      obtain ⟨hlt, hge⟩ := ih (n / 2) hle
      simp only [bitLengthAux, h0, if_false, Nat.add_sub_cancel]
      constructor
      · rw [Nat.pow_succ]
        omega
      · intro _
        by_cases h2 : n / 2 = 0
        · have hk : bitLengthAux fuel (n / 2) = 0 := by
            rw [h2]
            cases fuel <;> simp [bitLengthAux]
          rw [hk]
          simp
          omega
        · have hpos : 0 < n / 2 := Nat.pos_of_ne_zero h2
          have hk : 0 < bitLengthAux fuel (n / 2) := by
            rcases Nat.eq_zero_or_pos (bitLengthAux fuel (n / 2)) with hz | hz
            · rw [hz] at hlt
              simp at hlt
              omega
            · exact hz
          have := hge hpos
          have hpow : 2 ^ bitLengthAux fuel (n / 2) =
              2 ^ (bitLengthAux fuel (n / 2) - 1) * 2 := by
            rw [← Nat.pow_succ]
            congr 1
            omega
          omega

/-- The number `bitLength n` is the number of binary digits of `n`. -/
theorem bitLength_spec (n : Nat) :
    n < 2 ^ bitLength n ∧ (0 < n → 2 ^ (bitLength n - 1) ≤ n) :=
  bitLengthAux_spec n n (Nat.le_refl n)

/-- Integers up to `2 ^ 53` in absolute value are doubles: the conversion is exact. -/
theorem float64_exact (v : Int) (h : v.natAbs ≤ 2 ^ 53) : float64 v = v := by
  by_cases hlt : v.natAbs < 2 ^ 53
  · unfold float64
    simp only [hlt, if_true]
  · have heq : v.natAbs = 2 ^ 53 := by omega
    rcases Int.natAbs_eq v with hv | hv
    · rw [heq] at hv
      rw [hv]
      decide
    · rw [heq] at hv
      rw [hv]
      decide

theorem map_float64_exact : ∀ (vs : List Int), (∀ v ∈ vs, v.natAbs ≤ 2 ^ 53) →
    vs.map float64 = vs := by
  intro vs h
  induction vs with
  | nil => rfl
  | cons v rest ih =>
    rw [List.map_cons, float64_exact v (h v (List.mem_cons_self _ _)),
      ih (fun w hw => h w (List.mem_cons_of_mem _ hw))]

/-- A separator that occurs is found, at or before the place where it is known to occur. -/
theorem Index_append_le (sep r : GoString) : ∀ (p : GoString),
    ∃ m, Index (p ++ sep ++ r) sep = some m ∧ m ≤ p.length := by
  intro p
  induction p with
  | nil =>
    refine ⟨0, ?_, Nat.le_refl _⟩
    unfold Index
    have : List.isPrefixOf sep ([] ++ sep ++ r) = true := by
      rw [List.isPrefixOf_iff_prefix]
      simp
    rw [if_pos this]
  | cons c cs ih =>
    obtain ⟨m, hm, hle⟩ := ih
    by_cases hp : List.isPrefixOf sep (c :: cs ++ sep ++ r) = true
    · refine ⟨0, ?_, Nat.zero_le _⟩
      unfold Index
      rw [if_pos hp]
    · refine ⟨m + 1, ?_, by simp only [List.length_cons]; omega⟩
      unfold Index
      rw [if_neg hp]
      simp only [List.cons_append, List.append_assoc] at hm ⊢
      simp [hm]

/-! ## The pool summary (`processPool`) -/

/-- The two loops of `processPool` on one line: the metric the line gives, if any. -/
theorem processPool_eq_filterMap (c : Collector) (body : GoString) :
    processPool c body = (Split body ['\n']).filterMap (fun line =>
      (match Split line [':'] with
        | [k, v] => some (TrimSpace k, TrimSpace v)
        | _ => none).bind (poolMetric c)) := by
  unfold processPool parseRows
  rw [List.filterMap_filterMap]

theorem poolSwitch_table (cfg : Config) (n : Nat) (key : String) (v : Int) :
    ((poolSwitch (collectorAt cfg n).descs key).bind
        (fun r => NewConstMetric r.1 r.2.1 v r.2.2)).map Metric.observation =
      ((mappingTable.find? (fun row => key == row.key)).map (fun row =>
        ({ identity := BuildFQName cfg.Namespace "" row.identity, kind := row.kind,
           labels := row.label.toList, value := v } : Observation))).map some := by
  unfold poolSwitch
  split
  case h_10 h1 h2 h3 h4 h5 h6 h7 h8 h9 =>
    have e1 := beq_false_of_ne h1
    have e2 := beq_false_of_ne h2
    have e3 := beq_false_of_ne h3
    have e4 := beq_false_of_ne h4
    have e5 := beq_false_of_ne h5
    have e6 := beq_false_of_ne h6
    have e7 := beq_false_of_ne h7
    have e8 := beq_false_of_ne h8
    have e9 := beq_false_of_ne h9
    simp only [mappingTable, List.find?, e1, e2, e3, e4, e5, e6, e7, e8, e9]
    rfl
  all_goals
    simp [mappingTable, NewConstMetric, collectorAt, initDescs, newFuncMetric, NewDesc,
      Metric.observation, List.find?]

theorem poolLine_table (cfg : Config) (n : Nat) (line : GoString) :
    ((match Split line [':'] with
        | [k, v] => some (TrimSpace k, TrimSpace v)
        | _ => none).bind (poolMetric (collectorAt cfg n))).map Metric.observation =
      (tableObservation cfg.Namespace line).map (fun o => some o.sent) := by
  unfold tableObservation parseField
  split
  · rename_i k v hS
    simp only [Option.some_bind, poolMetric]
    cases hA : Atoi (TrimSpace v) with
    | none => simp
    | some val =>
      have := poolSwitch_table cfg n (String.mk (TrimSpace k)) (float64 val)
      simp only at this ⊢
      cases hP : poolSwitch (collectorAt cfg n).descs (String.mk (TrimSpace k)) with
      | none =>
        rw [hP] at this
        cases hF : mappingTable.find? (fun row => String.mk (TrimSpace k) == row.key) with
        | none => simp
        | some row => rw [hF] at this; simp at this
      | some r =>
        rw [hP] at this
        obtain ⟨d, vt, ls⟩ := r
        simp only [Option.some_bind] at this
        rw [this]
        cases hF : mappingTable.find? (fun row => String.mk (TrimSpace k) == row.key) with
        | none => simp
        | some row => simp [Observation.sent]
  · simp

/-- What `processPool` tells the sink is what the mapping table prescribes, line by
line, with the value converted to `float64`. -/
theorem processPool_observations (cfg : Config) (n : Nat) (body : GoString) :
    (processPool (collectorAt cfg n) body).map Metric.observation =
      ((Split body ['\n']).filterMap (tableObservation cfg.Namespace)).map
        (fun o => some o.sent) := by
  rw [processPool_eq_filterMap, List.map_filterMap, List.map_filterMap]
  congr 1
  funext line
  exact poolLine_table cfg n line

/-- Every metric of `processPool` carries the name of a row of the mapping table. -/
theorem processPool_identity (cfg : Config) (n : Nat) (body : GoString) (m : Metric)
    (hm : m ∈ processPool (collectorAt cfg n) body) :
    ∃ row ∈ mappingTable, m.desc.fqName = BuildFQName cfg.Namespace "" row.identity := by
  have hmem : m.observation ∈ (processPool (collectorAt cfg n) body).map Metric.observation :=
    List.mem_map_of_mem _ hm
  rw [processPool_observations] at hmem
  obtain ⟨o, ho, hom⟩ := List.mem_map.mp hmem
  obtain ⟨line, _, hline⟩ := List.mem_filterMap.mp ho
  unfold tableObservation at hline
  cases hP : parseField line with
  | none => simp [hP] at hline
  | some kv =>
    obtain ⟨key, v⟩ := kv
    simp only [hP] at hline
    cases hF : mappingTable.find? (fun row => key == row.key) with
    | none => simp [hF] at hline
    | some row =>
      simp only [hF, Option.some.injEq] at hline
      refine ⟨row, List.mem_of_find?_eq_some hF, ?_⟩
      cases m with
      | constMetric d k val ls =>
        simp only [Metric.observation, Option.some.injEq] at hom
        rw [← hline] at hom
        have := congrArg Observation.identity hom
        simpa [Metric.desc, Observation.sent] using this.symm
      | summary sm => simp [Metric.observation] at hom

theorem BuildFQName_ne (ns a b : String) (ha : a ≠ "") (hb : b ≠ "") (hab : a ≠ b) :
    BuildFQName ns "" a ≠ BuildFQName ns "" b := by
  intro h
  apply hab
  unfold BuildFQName at h
  by_cases hns : ns = ""
  · simpa [ha, hb, hns] using h
  · simp only [ha, hb, hns, if_false, ne_eq, not_true_eq_false, and_false, not_false_eq_true,
      if_true] at h
    have := congrArg String.data h
    simp only [String.data_append, List.append_assoc, List.append_cancel_left_eq] at this
    exact String.ext this

theorem tableObservation_value (ns : String) (line : GoString) (o : Observation)
    (h : tableObservation ns line = some o) : ∃ key, parseField line = some (key, o.value) := by
  unfold tableObservation at h
  cases hP : parseField line with
  | none => simp [hP] at h
  | some kv =>
    obtain ⟨key, v⟩ := kv
    simp only [hP] at h
    cases hF : mappingTable.find? (fun row => key == row.key) with
    | none => simp [hF] at h
    | some row =>
      simp only [hF, Option.some.injEq] at h
      subst h
      exact ⟨key, rfl⟩

/-- When every field of the block is at most `2 ^ 53` in absolute value, the conversion
changes no value. -/
theorem processPool_observations_exact (cfg : Config) (n : Nat) (body : GoString)
    (h : ∀ fld ∈ fields body, fld.2.natAbs ≤ 2 ^ 53) :
    (processPool (collectorAt cfg n) body).map Metric.observation =
      ((Split body ['\n']).filterMap (tableObservation cfg.Namespace)).map some := by
  rw [processPool_observations]
  apply List.map_congr_left
  intro o ho
  obtain ⟨line, hline, hobs⟩ := List.mem_filterMap.mp ho
  obtain ⟨key, hkey⟩ := tableObservation_value _ _ _ hobs
  have hmem : (key, o.value) ∈ fields body := by
    unfold fields
    exact List.mem_filterMap.mpr ⟨line, hline, hkey⟩
  have := float64_exact o.value (h _ hmem)
  simp [Observation.sent, this]

/-! ## Malformed lines -/

theorem parseRows_append (a b : List GoString) :
    parseRows (a ++ b) = parseRows a ++ parseRows b := by
  unfold parseRows
  rw [List.filterMap_append]

/-- The rows of a block built from chunks of lines are the rows of the chunks, in order. -/
theorem parseRows_joinLines : ∀ (xs : List GoString),
    parseRows (Split (joinLines xs) ['\n']) =
      xs.flatMap (fun x => parseRows (Split x ['\n'])) := by
  intro xs
  induction xs with
  | nil => rfl
  | cons x rest ih =>
    cases rest with
    | nil => simp [joinLines, Join]
    | cons y rest =>
      have : joinLines (x :: y :: rest) = x ++ '\n' :: joinLines (y :: rest) := by
        simp [joinLines, Join]
      rw [this, Split_single_append, parseRows_append, ih]
      simp

/-- A malformed line gives no row, or a row the value of which is not an integer. -/
theorem Malformed.rows {l : GoString} (hl : Malformed l) :
    ∀ row ∈ parseRows [l], Atoi row.2 = none := by
  intro row hrow
  have hlen := Split_single_length ':' l
  by_cases h1 : l.count ':' = 1
  · have hS := Split_single_count_one ':' l h1
    have hA : Atoi (TrimSpace (afterFirst ':' l)) = none := by
      rcases hl with h | h | h | h
      · omega
      · omega
      · exact h
      · subst h; simp at h1
    simp only [parseRows, List.filterMap_cons, List.filterMap_nil, hS] at hrow
    simp only [List.mem_singleton] at hrow
    subst hrow
    exact hA
  · exfalso
    rcases hS : Split l [':'] with _ | ⟨k, _ | ⟨v, _ | ⟨w, t⟩⟩⟩
    · simp [parseRows, hS] at hrow
    · simp [parseRows, hS] at hrow
    · rw [hS] at hlen
      simp at hlen
      omega
    · simp [parseRows, hS] at hrow

theorem filterMap_poolMetric_of_no_int (c : Collector) : ∀ (rows : List (GoString × GoString)),
    (∀ row ∈ rows, Atoi row.2 = none) → rows.filterMap (poolMetric c) = [] := by
  intro rows h
  rw [List.filterMap_eq_nil_iff]
  intro row hrow
  simp [poolMetric, h row hrow]

theorem foldl_workerObserve_of_no_int : ∀ (rows : List (GoString × GoString))
    (st : Summary × Summary),
    (∀ row ∈ rows, Atoi row.2 = none) → rows.foldl workerObserve st = st := by
  intro rows
  induction rows with
  | nil => intro st _; rfl
  | cons r rs ih =>
    intro st h
    have hr : workerObserve st r = st := by
      simp [workerObserve, h r (List.mem_cons_self _ _)]
    rw [List.foldl_cons, hr]
    exact ih st (fun row hrow => h row (List.mem_cons_of_mem _ hrow))

/-- The rows of a block do not change when a malformed line is taken out, up to rows
without an integer value. -/
theorem rows_of_block_with_malformed (pre post : List GoString) (l : GoString)
    (hl : Malformed l) (hnl : '\n' ∉ l) :
    ∃ bad : List (GoString × GoString), (∀ row ∈ bad, Atoi row.2 = none) ∧
      parseRows (Split (joinLines (pre ++ l :: post)) ['\n']) =
        pre.flatMap (fun x => parseRows (Split x ['\n'])) ++ bad ++
          post.flatMap (fun x => parseRows (Split x ['\n'])) ∧
      parseRows (Split (joinLines (pre ++ post)) ['\n']) =
        pre.flatMap (fun x => parseRows (Split x ['\n'])) ++
          post.flatMap (fun x => parseRows (Split x ['\n'])) := by
  refine ⟨parseRows [l], hl.rows, ?_, ?_⟩
  · rw [parseRows_joinLines]
    simp [List.flatMap_append, Split_single_of_not_mem hnl]
  · rw [parseRows_joinLines]
    simp [List.flatMap_append]

/-! ## The worker blocks (`processWorkers`) -/

theorem Summary.observeAll_nil (s : Summary) : s.observeAll [] = s := by
  simp [Summary.observeAll]

theorem Summary.observeAll_observeAll (s : Summary) (a b : List Int) :
    (s.observeAll a).observeAll b = s.observeAll (a ++ b) := by
  simp [Summary.observeAll]

theorem Summary.Observe_eq (s : Summary) (v : Int) : s.Observe v = s.observeAll [v] := by
  rfl

theorem valuesOf_append (key : String) (a b : List (String × Int)) :
    valuesOf key (a ++ b) = valuesOf key a ++ valuesOf key b := by
  simp [valuesOf]

theorem fields_eq_rows (block : GoString) :
    fields block = (parseRows (Split block ['\n'])).filterMap rowField := by
  unfold fields parseRows
  rw [List.filterMap_filterMap]
  congr 1
  funext line
  unfold parseField
  rcases Split line [':'] with _ | ⟨k, _ | ⟨v, _ | ⟨w, t⟩⟩⟩ <;> simp [rowField]

theorem workerObserve_eq (st : Summary × Summary) (row : GoString × GoString) :
    workerObserve st row =
      (st.1.observeAll ((valuesOf "start since" (rowField row).toList).map float64),
       st.2.observeAll ((valuesOf "requests" (rowField row).toList).map float64)) := by
  unfold workerObserve rowField
  cases hA : Atoi row.2 with
  | none => simp [valuesOf, Summary.observeAll_nil]
  | some v =>
    simp only
    split
    · rename_i hk
      simp [valuesOf, hk, Summary.Observe_eq, Summary.observeAll_nil]
    · rename_i hk
      simp [valuesOf, hk, Summary.Observe_eq, Summary.observeAll_nil]
    · rename_i h1 h2
      have e1 : (String.mk row.1 == "start since") = false := beq_false_of_ne h1
      have e2 : (String.mk row.1 == "requests") = false := beq_false_of_ne h2
      simp [valuesOf, List.filter, e1, e2, Summary.observeAll_nil]

theorem foldl_workerObserve : ∀ (rows : List (GoString × GoString)) (st : Summary × Summary),
    rows.foldl workerObserve st =
      (st.1.observeAll ((valuesOf "start since" (rows.filterMap rowField)).map float64),
       st.2.observeAll ((valuesOf "requests" (rows.filterMap rowField)).map float64)) := by
  intro rows
  induction rows with
  | nil => intro st; simp [valuesOf, Summary.observeAll_nil]
  | cons r rs ih =>
    intro st
    rw [List.foldl_cons, ih, workerObserve_eq]
    simp only [Summary.observeAll_observeAll, ← List.map_append, ← valuesOf_append]
    cases hr : rowField r <;> simp [List.filterMap_cons, hr]

theorem foldl_workers : ∀ (workers : List GoString) (st : Summary × Summary),
    workers.foldl
        (fun st worker => (parseRows (Split worker ['\n'])).foldl workerObserve st) st =
      (st.1.observeAll ((lifetimeValues workers).map float64),
       st.2.observeAll ((requestsValues workers).map float64)) := by
  intro workers
  induction workers with
  | nil => intro st; simp [lifetimeValues, requestsValues, valuesOf, Summary.observeAll_nil]
  | cons w ws ih =>
    intro st
    rw [List.foldl_cons, ih, foldl_workerObserve]
    simp only [Summary.observeAll_observeAll, ← fields_eq_rows]
    simp [lifetimeValues, requestsValues, valuesOf]

/-- The method `processWorkers` in closed form: the two summaries with the values
they have observed. -/
theorem processWorkers_eq (c : Collector) (workers : List GoString) :
    processWorkers c workers =
      [ .summary ((NewSummary (getMetricName c "workers_lifetime_summary")
          "summary of workers lifetime" summaryObjectives [("pool", "www")]).observeAll
            ((lifetimeValues workers).map float64)),
        .summary ((NewSummary (getMetricName c "workers_requests_summary")
          "summary of requests processed by workers" summaryObjectives
            [("pool", "www")]).observeAll ((requestsValues workers).map float64)) ] := by
  unfold processWorkers
  simp only [foldl_workers]

theorem BuildFQName_bare (name : String) : BuildFQName "" "" name = name := by
  unfold BuildFQName
  by_cases h : name = "" <;> simp [h]

theorem valuesOf_bound (key : String) (fs : List (String × Int))
    (h : ∀ fld ∈ fs, fld.2.natAbs ≤ 2 ^ 53) : ∀ v ∈ valuesOf key fs, v.natAbs ≤ 2 ^ 53 := by
  intro v hv
  unfold valuesOf at hv
  obtain ⟨fld, hfld, rfl⟩ := List.mem_map.mp hv
  exact h fld (List.mem_of_mem_filter hfld)

/-! ## One collection cycle (`Collect`) -/

/-- A cycle the fetch of which fails: the count goes up by one and two metrics are sent. -/
theorem Collect_of_failure (cfg : Config) (n : Nat) (f : DataFetcher)
    (h : fetchFails (collectorAt cfg n) f = true) :
    Collect (collectorAt cfg n) f =
      some { collector := collectorAt cfg (n + 1)
             calls := [(fetch (collectorAt cfg n) f).1]
             ch := [ .constMetric (collectorAt cfg n).descs.up .GaugeValue 0 [],
                     .constMetric (collectorAt cfg n).descs.scrapeFailures .CounterValue
                       ((n + 1 : Nat) : Int) [] ] } := by
  unfold fetchFails at h
  unfold Collect
  simp only [h]
  rfl

/-- A cycle the fetch of which succeeds: the count stays, and the pool metrics and the two
summaries follow the first two metrics. -/
theorem Collect_of_success (cfg : Config) (n : Nat) (f : DataFetcher)
    (h : fetchFails (collectorAt cfg n) f = false) :
    ∃ pool workers, Split (fetch (collectorAt cfg n) f).2.body "******".toList = pool :: workers ∧
      Collect (collectorAt cfg n) f =
        some { collector := collectorAt cfg n
               calls := [(fetch (collectorAt cfg n) f).1]
               ch := [ .constMetric (collectorAt cfg n).descs.up .GaugeValue 1 [],
                       .constMetric (collectorAt cfg n).descs.scrapeFailures .CounterValue n [] ]
                     ++ processPool (collectorAt cfg n) pool
                     ++ processWorkers (collectorAt cfg n) workers } := by
  unfold fetchFails at h
  cases hS : Split (fetch (collectorAt cfg n) f).2.body "******".toList with
  | nil => exact absurd hS (Split_ne_nil (by decide))
  | cons pool workers =>
    refine ⟨pool, workers, rfl, ?_⟩
    unfold Collect
    simp only [h, hS]
    rfl

theorem fetchFails_collectorAt (cfg : Config) (n m : Nat) :
    fetchFails (collectorAt cfg n) = fetchFails (collectorAt cfg m) := by
  rfl

/-- The collector a cycle leaves behind. -/
theorem Collect_collector (cfg : Config) (n : Nat) (f : DataFetcher) :
    ∃ r, Collect (collectorAt cfg n) f = some r ∧
      r.collector = collectorAt cfg (if fetchFails (collectorAt cfg n) f then n + 1 else n) ∧
      r.calls = [(fetch (collectorAt cfg n) f).1] := by
  cases h : fetchFails (collectorAt cfg n) f with
  | true => exact ⟨_, Collect_of_failure cfg n f h, rfl, rfl⟩
  | false =>
    obtain ⟨pool, workers, _, hC⟩ := Collect_of_success cfg n f h
    exact ⟨_, hC, rfl, rfl⟩

theorem runCycles_collectorAt (cfg : Config) : ∀ (fs : List DataFetcher) (n : Nat),
    runCycles fs (collectorAt cfg n) =
      some (collectorAt cfg (n + fs.countP (fetchFails (collectorAt cfg n)))) := by
  intro fs
  induction fs with
  | nil => intro n; simp [runCycles]
  | cons f fs ih =>
    intro n
    obtain ⟨r, hr, hc, _⟩ := Collect_collector cfg n f
    simp only [runCycles, hr, hc]
    cases h : fetchFails (collectorAt cfg n) f with
    | true =>
      simp only [if_true]
      rw [ih, fetchFails_collectorAt cfg (n + 1) n, List.countP_cons_of_pos _ _ h]
      congr 2
      omega
    | false =>
      have h' : ¬ (fetchFails (collectorAt cfg n) f = true) := by simp [h]
      simp only [Bool.false_eq_true, if_false]
      rw [ih, List.countP_cons_of_neg _ _ h']

/-- No metric of `processPool` is named like `up` or like `scrape_failures_total`. -/
theorem processPool_countP_name (cfg : Config) (n : Nat) (body : GoString) (name : String)
    (hne : name ≠ "") (hname : ∀ row ∈ mappingTable, row.identity ≠ name) :
    (processPool (collectorAt cfg n) body).countP
      (fun m => m.desc.fqName = BuildFQName cfg.Namespace "" name) = 0 := by
  rw [List.countP_eq_zero]
  intro m hm
  obtain ⟨row, hrow, hfq⟩ := processPool_identity cfg n body m hm
  have hall : ∀ row ∈ mappingTable, row.identity ≠ "" := by decide
  have hrow_ne : row.identity ≠ "" := hall row hrow
  simpa [hfq] using BuildFQName_ne cfg.Namespace row.identity name hrow_ne hne (hname row hrow)

theorem processWorkers_countP_name (cfg : Config) (n : Nat) (workers : List GoString)
    (name : String) (hne : name ≠ "") (h1 : name ≠ "workers_lifetime_summary")
    (h2 : name ≠ "workers_requests_summary") :
    (processWorkers (collectorAt cfg n) workers).countP
      (fun m => m.desc.fqName = BuildFQName cfg.Namespace "" name) = 0 := by
  rw [processWorkers_eq]
  have e1 := BuildFQName_ne cfg.Namespace "workers_lifetime_summary" name (by decide) hne
    (fun e => h1 e.symm)
  have e2 := BuildFQName_ne cfg.Namespace "workers_requests_summary" name (by decide) hne
    (fun e => h2 e.symm)
  simp [List.countP_cons, Metric.desc, Summary.observeAll, NewSummary, NewDesc, getMetricName,
    BuildFQName_bare, collectorAt, e1, e2]

theorem fetch_fetcherReturning (cfg : Config) (n : Nat) (res : FetchResult) :
    (fetch (collectorAt cfg n) (fetcherReturning res)).2 = res := by
  unfold fetch
  cases h : cfg.FcgiEndpoint <;> simp [collectorAt, h, fetcherReturning]

theorem poolSwitch_described (c : Collector) (key : String) (r : Desc × ValueType × List String)
    (h : poolSwitch c.descs key = some r) : r.1 ∈ Describe c := by
  unfold poolSwitch at h
  split at h <;> simp only [Option.some.injEq, reduceCtorEq] at h <;> subst h <;>
    simp [Describe]

/-- Every metric of `processPool` carries one of the descriptors `Describe` sends. -/
theorem processPool_described (cfg : Config) (n : Nat) (body : GoString) (m : Metric)
    (hm : m ∈ processPool (collectorAt cfg n) body) : m.desc ∈ Describe (collectorAt cfg n) := by
  unfold processPool at hm
  obtain ⟨row, _, hrow⟩ := List.mem_filterMap.mp hm
  unfold poolMetric at hrow
  cases hA : Atoi row.2 with
  | none => simp [hA] at hrow
  | some v =>
    simp only [hA] at hrow
    cases hP : poolSwitch (collectorAt cfg n).descs (String.mk row.1) with
    | none => simp [hP] at hrow
    | some r =>
      obtain ⟨d, vt, ls⟩ := r
      simp only [hP] at hrow
      have hd := poolSwitch_described (collectorAt cfg n) _ _ hP
      unfold NewConstMetric at hrow
      split at hrow
      · simp only [Option.some.injEq] at hrow
        subst hrow
        exact hd
      · simp at hrow

/-- A cycle sees the fetcher through `fetch` alone. -/
theorem Collect_congr (c : Collector) (f f' : DataFetcher) (h : fetch c f = fetch c f') :
    Collect c f = Collect c f' := by
  unfold Collect
  rw [h]

theorem fetch_fst (cfg : Config) (n : Nat) (f f' : DataFetcher) :
    (fetch (collectorAt cfg n) f).1 = (fetch (collectorAt cfg n) f').1 := by
  unfold fetch
  cases h : cfg.FcgiEndpoint <;> simp [collectorAt, h]

theorem processWorkers_length (c : Collector) (workers : List GoString) :
    (processWorkers c workers).length = 2 := by
  rfl

/-! ## Concurrent cycles -/

theorem count_set_of_ne {α : Type} [DecidableEq α] (b : α) : ∀ (l : List α) (i : Nat) (a x : α),
    l[i]? = some x → x ≠ b → (l.set i a).count b = l.count b + (if a = b then 1 else 0) := by
  intro l
  induction l with
  | nil => intro i a x h _; simp at h
  | cons y ys ih =>
    intro i a x h hx
    cases i with
    | zero =>
      simp only [List.getElem?_cons_zero, Option.some.injEq] at h
      subst h
      simp only [List.set_cons_zero, List.count_cons]
      have : ¬ ((y == b) = true) := by simpa using hx
      simp [this]
    | succ i =>
      simp only [List.getElem?_cons_succ] at h
      simp only [List.set_cons_succ, List.count_cons]
      rw [ih i a x h hx]
      omega

theorem ConcInv_start (n count : Nat) : ConcInv n count (startCycles n count) := by
  have hc : (List.replicate count IncState.ready).count IncState.done = 0 := by
    rw [List.count_eq_zero]
    intro h
    have := List.eq_of_mem_replicate h
    simp at this
  refine ⟨by simp [startCycles], by simp [startCycles], by simp [startCycles], ?_, ?_⟩
  · simp [startCycles, hc]
  · intro v hv
    have := List.eq_of_mem_replicate hv
    simp at this

theorem ConcInv_step (n count : Nat) (s : Shared) (i : Nat) (h : ConcInv n count s) :
    ConcInv n count (stepGoroutine s i) := by
  obtain ⟨hlen, hge, hle, hpos, hld⟩ := h
  unfold stepGoroutine
  cases hi : s.goroutines[i]? with
  | none => exact ⟨hlen, hge, hle, hpos, hld⟩
  | some st =>
    cases st with
    | done => exact ⟨hlen, hge, hle, hpos, hld⟩
    | ready =>
      have hcount := count_set_of_ne IncState.done s.goroutines i
        (IncState.loaded s.failureCount) IncState.ready hi (by simp)
      simp only [reduceCtorEq, if_false, Nat.add_zero] at hcount
      refine ⟨by simp [hlen], hge, ?_, ?_, ?_⟩
      · simp only [hcount]; exact hle
      · simp only [hcount]; exact hpos
      · intro v hv
        simp only [hcount]
        rcases List.mem_or_eq_of_mem_set hv with hv | hv
        · exact hld v hv
        · simp only [IncState.loaded.injEq] at hv
          subst hv
          exact ⟨hge, hle⟩
    | loaded v =>
      have hmem : IncState.loaded v ∈ s.goroutines := List.getElem?_mem hi
      have hv := hld v hmem
      have hcount := count_set_of_ne IncState.done s.goroutines i IncState.done
        (IncState.loaded v) hi (by simp)
      simp only [if_true] at hcount
      refine ⟨by simp [hlen], ?_, ?_, ?_, ?_⟩
      · simp only; omega
      · simp only [hcount]; omega
      · intro _; simp only; omega
      · intro w hw
        simp only [hcount]
        rcases List.mem_or_eq_of_mem_set hw with hw | hw
        · have := hld w hw
          omega
        · simp at hw

theorem ConcInv_run (n count : Nat) : ∀ (schedule : List Nat) (s : Shared),
    ConcInv n count s → ConcInv n count (runSchedule s schedule) := by
  intro schedule
  induction schedule with
  | nil => intro s h; exact h
  | cons i rest ih =>
    intro s h
    exact ih _ (ConcInv_step n count s i h)

theorem count_done_of_allDone (s : Shared) (h : allDone s = true) :
    s.goroutines.count .done = s.goroutines.length := by
  rw [List.count_eq_length]
  intro b hb
  unfold allDone at h
  rw [List.all_eq_true] at h
  have := h b hb
  simp only [beq_iff_eq] at this
  exact this.symm

/-- Bounds on the failure count once `count` concurrent failing cycles have all written. -/
theorem concurrent_bounds (n count : Nat) (schedule : List Nat) (hcount : 0 < count)
    (hdone : allDone (runSchedule (startCycles n count) schedule) = true) :
    n + 1 ≤ (runSchedule (startCycles n count) schedule).failureCount ∧
      (runSchedule (startCycles n count) schedule).failureCount ≤ n + count := by
  obtain ⟨hlen, _, hle, hpos, _⟩ := ConcInv_run n count schedule _ (ConcInv_start n count)
  have hc := count_done_of_allDone _ hdone
  rw [hlen] at hc
  rw [hc] at hle hpos
  exact ⟨hpos hcount, hle⟩

theorem getElem?_append_length {α : Type} (x : α) (rest : List α) : ∀ (pre : List α),
    (pre ++ x :: rest)[pre.length]? = some x := by
  intro pre
  induction pre with
  | nil => simp
  | cons y ys ih => simpa using ih

theorem set_append_length {α : Type} (x y : α) (rest : List α) : ∀ (pre : List α),
    (pre ++ x :: rest).set pre.length y = pre ++ y :: rest := by
  intro pre
  induction pre with
  | nil => rfl
  | cons z zs ih => simp [ih]

/-- Goroutines that run one after another each add one. -/
theorem run_sequentialFrom : ∀ (count n : Nat) (pre : List IncState),
    runSchedule ⟨n, pre ++ List.replicate count .ready⟩ (sequentialFrom pre.length count) =
      ⟨n + count, pre ++ List.replicate count .done⟩ := by
  intro count
  induction count with
  | zero => intro n pre; rfl
  | succ count ih =>
    intro n pre
    have s1 : stepGoroutine ⟨n, pre ++ List.replicate (count + 1) .ready⟩ pre.length =
        ⟨n, pre ++ IncState.loaded n :: List.replicate count .ready⟩ := by
      simp only [stepGoroutine, List.replicate_succ, getElem?_append_length, set_append_length]
    have s2 : stepGoroutine ⟨n, pre ++ IncState.loaded n :: List.replicate count .ready⟩
        pre.length = ⟨n + 1, pre ++ IncState.done :: List.replicate count .ready⟩ := by
      simp only [stepGoroutine, getElem?_append_length, set_append_length]
    have := ih (n + 1) (pre ++ [IncState.done])
    simp only [List.length_append, List.length_singleton, List.append_assoc,
      List.singleton_append] at this
    simp only [sequentialFrom, runSchedule, List.foldl_cons, s1, s2]
    simp only [runSchedule] at this
    rw [this, List.replicate_succ]
    congr 1
    omega

/-! ## The claims -/

/-- Claim C1, refuted as stated: for the block `accepted conn: 9007199254740993` the parsed
integer is 9007199254740993, but the value `processPool` emits is its conversion
to `float64`, 9007199254740992. -/
theorem processPool_value_counterexample :
    (Split "accepted conn: 9007199254740993".toList ['\n']).filterMap
        (tableObservation "phpfpm") =
        [⟨"phpfpm_accepted_connections_total", .CounterValue, [], 9007199254740993⟩] ∧
      processPool (collectorAt exampleConfig 0) "accepted conn: 9007199254740993".toList =
        [ .constMetric (collectorAt exampleConfig 0).descs.acceptedConn .CounterValue
            9007199254740992 [] ] ∧
      (processPool (collectorAt exampleConfig 0)
          "accepted conn: 9007199254740993".toList).map Metric.observation ≠
        ((Split "accepted conn: 9007199254740993".toList ['\n']).filterMap
          (tableObservation exampleConfig.Namespace)).map some := by
  decide

/-- Claim C1, amended: the metrics `processPool` emits are, in the order of the lines of the
block, one metric per line that splits on the colon into exactly two parts, has a
trimmed value that parses as an integer and a trimmed key in the mapping table,
with the identity, value kind and label of the table row and, as value, the
parsed integer converted to `float64`, which is the parsed integer itself when
it is at most `2 ^ 53` in absolute value (so that a block without a larger field
is observed with the parsed integers); every other line emits nothing.  In particular `idle processes: 3` and `active processes: 7` give two
`processes_total` gauges, labelled `state=idle` with value 3 and `state=active`
with value 7. -/
theorem processPool_follows_table (cfg : Config) (n : Nat) (body : GoString) :
    (processPool (collectorAt cfg n) body).map Metric.observation =
        ((Split body ['\n']).filterMap (tableObservation cfg.Namespace)).map
          (fun o => some o.sent) ∧
      (∀ v : Int, v.natAbs ≤ 2 ^ 53 → float64 v = v) ∧
      ((∀ fld ∈ fields body, fld.2.natAbs ≤ 2 ^ 53) →
        (processPool (collectorAt cfg n) body).map Metric.observation =
          ((Split body ['\n']).filterMap (tableObservation cfg.Namespace)).map some) ∧
      processPool (collectorAt cfg n) "idle processes: 3\nactive processes: 7".toList =
        [ .constMetric (collectorAt cfg n).descs.phpProcesses .GaugeValue 3 ["idle"],
          .constMetric (collectorAt cfg n).descs.phpProcesses .GaugeValue 7 ["active"] ] ∧
      (processPool (collectorAt cfg n) "idle processes: 3\nactive processes: 7".toList).map
          Metric.observation =
        [ some ⟨BuildFQName cfg.Namespace "" "processes_total", .GaugeValue,
            [("state", "idle")], 3⟩,
          some ⟨BuildFQName cfg.Namespace "" "processes_total", .GaugeValue,
            [("state", "active")], 7⟩ ] :=
  ⟨processPool_observations cfg n body, float64_exact,
    processPool_observations_exact cfg n body, rfl, rfl⟩

/-- The pool summary of a status page: every field is small, so the observations are those
of the table with the parsed integers as values. -/
theorem processPool_follows_table_witness :
    (∀ fld ∈ fields "pool: www\naccepted conn: 12\nidle processes: 3\nactive processes: 7".toList,
        fld.2.natAbs ≤ 2 ^ 53) ∧
      (processPool (collectorAt exampleConfig 0)
          "pool: www\naccepted conn: 12\nidle processes: 3\nactive processes: 7".toList).map
          Metric.observation =
        ((Split "pool: www\naccepted conn: 12\nidle processes: 3\nactive processes: 7".toList
          ['\n']).filterMap (tableObservation exampleConfig.Namespace)).map some :=
  ⟨by decide,
    (processPool_follows_table exampleConfig 0
      "pool: www\naccepted conn: 12\nidle processes: 3\nactive processes: 7".toList).2.2.1
      (by decide)⟩

/-- Claim C2: a malformed line (no colon, two or more colons, a value that is no integer, or
the empty line) produces no field, in a pool-summary block and in a worker block
alike: it emits no metric and no summary observation, no error is raised (the
cycle completes), and the block is processed as if the line were not there. -/
theorem malformed_line_is_skipped (cfg : Config) (n : Nat) (pre post : List GoString)
    (l : GoString) (before after : List GoString) (hl : Malformed l) (hnl : '\n' ∉ l) :
    parseField l = none ∧
      processPool (collectorAt cfg n) l = [] ∧
      processWorkers (collectorAt cfg n) [l] = processWorkers (collectorAt cfg n) [] ∧
      processPool (collectorAt cfg n) (joinLines (pre ++ l :: post)) =
        processPool (collectorAt cfg n) (joinLines (pre ++ post)) ∧
      processWorkers (collectorAt cfg n) (before ++ joinLines (pre ++ l :: post) :: after) =
        processWorkers (collectorAt cfg n) (before ++ joinLines (pre ++ post) :: after) ∧
      (Collect (collectorAt cfg n)
        (fetcherReturning ⟨joinLines (pre ++ l :: post), none⟩)).isSome = true := by
  have hpool : ∀ pre post : List GoString,
      processPool (collectorAt cfg n) (joinLines (pre ++ l :: post)) =
        processPool (collectorAt cfg n) (joinLines (pre ++ post)) := by
    intro pre post
    obtain ⟨bad, hbad, h1, h2⟩ := rows_of_block_with_malformed pre post l hl hnl
    unfold processPool
    rw [h1, h2]
    simp [List.filterMap_append, filterMap_poolMetric_of_no_int _ bad hbad]
  have hfold : ∀ (pre post : List GoString) (st : Summary × Summary),
      (parseRows (Split (joinLines (pre ++ l :: post)) ['\n'])).foldl workerObserve st =
        (parseRows (Split (joinLines (pre ++ post)) ['\n'])).foldl workerObserve st := by
    intro pre post st
    obtain ⟨bad, hbad, h1, h2⟩ := rows_of_block_with_malformed pre post l hl hnl
    rw [h1, h2]
    simp [List.foldl_append, foldl_workerObserve_of_no_int bad _ hbad]
  have hworkers : ∀ (pre post before after : List GoString),
      processWorkers (collectorAt cfg n) (before ++ joinLines (pre ++ l :: post) :: after) =
        processWorkers (collectorAt cfg n) (before ++ joinLines (pre ++ post) :: after) := by
    intro pre post before after
    unfold processWorkers
    simp only [List.foldl_append, List.foldl_cons, hfold]
  refine ⟨?_, ?_, ?_, hpool pre post, hworkers pre post before after, ?_⟩
  · have hrows := hl.rows
    unfold parseField
    rcases hS : Split l [':'] with _ | ⟨k, _ | ⟨v, _ | ⟨w, t⟩⟩⟩ <;> simp
    have := hrows (TrimSpace k, TrimSpace v) (by simp [parseRows, hS])
    simp only at this
    simp [this]
  · have := hpool [] []
    simpa [joinLines, Join] using this
  · have := hworkers [] [] [] []
    simp only [List.nil_append, joinLines, Join] at this
    rw [this]
    rfl
  · obtain ⟨r, hr, _⟩ := Collect_collector cfg n
      (fetcherReturning ⟨joinLines (pre ++ l :: post), none⟩)
    simp [hr]

/-- A block with the malformed line `pm.status: ok: yes` between good lines is
processed like the block of the good lines alone. -/
theorem malformed_line_is_skipped_witness :
    Malformed "pm.status: ok: yes".toList ∧ '\n' ∉ "pm.status: ok: yes".toList ∧
      (parseField "pm.status: ok: yes".toList = none ∧
        processPool (collectorAt exampleConfig 0) "pm.status: ok: yes".toList = [] ∧
        processWorkers (collectorAt exampleConfig 0) ["pm.status: ok: yes".toList] =
          processWorkers (collectorAt exampleConfig 0) [] ∧
        processPool (collectorAt exampleConfig 0)
            (joinLines (["accepted conn: 12".toList, "start since: 10".toList] ++
              "pm.status: ok: yes".toList :: ["requests: 7".toList])) =
          processPool (collectorAt exampleConfig 0)
            (joinLines (["accepted conn: 12".toList, "start since: 10".toList] ++
              ["requests: 7".toList])) ∧
        processWorkers (collectorAt exampleConfig 0)
            (["requests: 5".toList] ++
              joinLines (["accepted conn: 12".toList, "start since: 10".toList] ++
                "pm.status: ok: yes".toList :: ["requests: 7".toList]) ::
                ["requests: 9".toList]) =
          processWorkers (collectorAt exampleConfig 0)
            (["requests: 5".toList] ++
              joinLines (["accepted conn: 12".toList, "start since: 10".toList] ++
                ["requests: 7".toList]) :: ["requests: 9".toList]) ∧
        (Collect (collectorAt exampleConfig 0)
          (fetcherReturning ⟨joinLines (["accepted conn: 12".toList, "start since: 10".toList] ++
            "pm.status: ok: yes".toList :: ["requests: 7".toList]), none⟩)).isSome = true) :=
  ⟨by decide, by decide,
    malformed_line_is_skipped exampleConfig 0
      ["accepted conn: 12".toList, "start since: 10".toList] ["requests: 7".toList]
      "pm.status: ok: yes".toList ["requests: 5".toList] ["requests: 9".toList]
      (by decide) (by decide)⟩

/-- Claim C3, refuted as stated: for the worker block `start since: 9007199254740993` the
field has the integer value 9007199254740993, but the lifetime summary observes
its conversion to `float64`, 9007199254740992. -/
theorem processWorkers_value_counterexample :
    lifetimeValues ["start since: 9007199254740993".toList] = [9007199254740993] ∧
      processWorkers (collectorAt exampleConfig 0) ["start since: 9007199254740993".toList] =
        [ .summary
            { desc := ⟨"phpfpm_workers_lifetime_summary", "summary of workers lifetime", [],
                [("pool", "www")]⟩
              objectives := summaryObjectives
              observations := [9007199254740992] },
          .summary
            { desc := ⟨"phpfpm_workers_requests_summary",
                "summary of requests processed by workers", [], [("pool", "www")]⟩
              objectives := summaryObjectives
              observations := [] } ] := by
  decide

/-- Claim C3, amended: the lifetime summary `processWorkers` builds observes, converted to
`float64`, the integer values of the fields keyed `start since` over all worker
blocks, block by block and line by line, and the requests summary those of the
fields keyed `requests`; no other key contributes.  The conversion leaves an
integer of at most `2 ^ 53` in absolute value as it is, so that worker blocks
without a larger field are observed with exactly these integers.  For the worker blocks `start since: 10\nrequests: 5` and
`start since: 20\nrequests: 15` the lifetime summary observes 10, 20 and the
requests summary 5, 15. -/
theorem processWorkers_observations (cfg : Config) (n : Nat) (workers : List GoString) :
    processWorkers (collectorAt cfg n) workers =
        [ .summary
            { desc := ⟨BuildFQName cfg.Namespace "" "workers_lifetime_summary",
                "summary of workers lifetime", [], [("pool", "www")]⟩
              objectives := summaryObjectives
              observations := (lifetimeValues workers).map float64 },
          .summary
            { desc := ⟨BuildFQName cfg.Namespace "" "workers_requests_summary",
                "summary of requests processed by workers", [], [("pool", "www")]⟩
              objectives := summaryObjectives
              observations := (requestsValues workers).map float64 } ] ∧
      (∀ v : Int, v.natAbs ≤ 2 ^ 53 → float64 v = v) ∧
      ((∀ fld ∈ workers.flatMap fields, fld.2.natAbs ≤ 2 ^ 53) →
        processWorkers (collectorAt cfg n) workers =
          [ .summary
              { desc := ⟨BuildFQName cfg.Namespace "" "workers_lifetime_summary",
                  "summary of workers lifetime", [], [("pool", "www")]⟩
                objectives := summaryObjectives
                observations := lifetimeValues workers },
            .summary
              { desc := ⟨BuildFQName cfg.Namespace "" "workers_requests_summary",
                  "summary of requests processed by workers", [], [("pool", "www")]⟩
                objectives := summaryObjectives
                observations := requestsValues workers } ]) ∧
      processWorkers (collectorAt cfg n) ["start since: 10\nrequests: 5".toList,
          "start since: 20\nrequests: 15".toList] =
        [ .summary
            { desc := ⟨BuildFQName cfg.Namespace "" "workers_lifetime_summary",
                "summary of workers lifetime", [], [("pool", "www")]⟩
              objectives := summaryObjectives
              observations := [10, 20] },
          .summary
            { desc := ⟨BuildFQName cfg.Namespace "" "workers_requests_summary",
                "summary of requests processed by workers", [], [("pool", "www")]⟩
              objectives := summaryObjectives
              observations := [5, 15] } ] := by
  have hgen : ∀ ws : List GoString, processWorkers (collectorAt cfg n) ws =
      [ .summary
          { desc := ⟨BuildFQName cfg.Namespace "" "workers_lifetime_summary",
              "summary of workers lifetime", [], [("pool", "www")]⟩
            objectives := summaryObjectives
            observations := (lifetimeValues ws).map float64 },
        .summary
          { desc := ⟨BuildFQName cfg.Namespace "" "workers_requests_summary",
              "summary of requests processed by workers", [], [("pool", "www")]⟩
            objectives := summaryObjectives
            observations := (requestsValues ws).map float64 } ] := by
    intro ws
    rw [processWorkers_eq]
    simp [NewSummary, NewDesc, getMetricName, collectorAt, BuildFQName_bare, Summary.observeAll]
  refine ⟨hgen workers, float64_exact, ?_, ?_⟩
  · intro h
    have h1 : (lifetimeValues workers).map float64 = lifetimeValues workers :=
      map_float64_exact _ (valuesOf_bound "start since" _ h)
    have h2 : (requestsValues workers).map float64 = requestsValues workers :=
      map_float64_exact _ (valuesOf_bound "requests" _ h)
    rw [hgen, h1, h2]
  · rw [hgen]
    have h1 : (lifetimeValues ["start since: 10\nrequests: 5".toList,
        "start since: 20\nrequests: 15".toList]).map float64 = [10, 20] := by decide
    have h2 : (requestsValues ["start since: 10\nrequests: 5".toList,
        "start since: 20\nrequests: 15".toList]).map float64 = [5, 15] := by decide
    rw [h1, h2]

/-- The two worker blocks of the specification: every field is small, and the summaries
observe 10, 20 and 5, 15. -/
theorem processWorkers_observations_witness :
    (∀ fld ∈ ["start since: 10\nrequests: 5".toList,
        "start since: 20\nrequests: 15".toList].flatMap fields, fld.2.natAbs ≤ 2 ^ 53) ∧
      processWorkers (collectorAt exampleConfig 0) ["start since: 10\nrequests: 5".toList,
          "start since: 20\nrequests: 15".toList] =
        [ .summary
            { desc := ⟨BuildFQName exampleConfig.Namespace "" "workers_lifetime_summary",
                "summary of workers lifetime", [], [("pool", "www")]⟩
              objectives := summaryObjectives
              observations := lifetimeValues ["start since: 10\nrequests: 5".toList,
                "start since: 20\nrequests: 15".toList] },
          .summary
            { desc := ⟨BuildFQName exampleConfig.Namespace "" "workers_requests_summary",
                "summary of requests processed by workers", [], [("pool", "www")]⟩
              objectives := summaryObjectives
              observations := requestsValues ["start since: 10\nrequests: 5".toList,
                "start since: 20\nrequests: 15".toList] } ] :=
  ⟨by decide,
    (processWorkers_observations exampleConfig 0 ["start since: 10\nrequests: 5".toList,
      "start since: 20\nrequests: 15".toList]).2.2.1 (by decide)⟩

/-- Claim C4: from a collector with failure count `n`, a cycle the fetch of which fails emits
`up` = 0 and `scrape_failures_total` = `n + 1` and leaves the count at `n + 1`; a
cycle the fetch of which succeeds emits `up` = 1 and `scrape_failures_total` = `n`
and leaves the count at `n`.  Hence after any sequence of cycles the count has
grown by the number of failed fetches of the sequence (from a new collector it is
that number): it never decreases and is never reset. -/
theorem failureCount_counts_failed_fetches (cfg : Config) (n : Nat) (f : DataFetcher)
    (fs : List DataFetcher) :
    (∃ r, Collect (collectorAt cfg n) f = some r ∧
      r.collector.descs.failureCount = (if fetchFails (collectorAt cfg n) f then n + 1 else n) ∧
      r.collector = collectorAt cfg (if fetchFails (collectorAt cfg n) f then n + 1 else n) ∧
      r.ch.take 2 =
        [ .constMetric (collectorAt cfg n).descs.up .GaugeValue
            (if fetchFails (collectorAt cfg n) f then 0 else 1) [],
          .constMetric (collectorAt cfg n).descs.scrapeFailures .CounterValue
            ((if fetchFails (collectorAt cfg n) f then n + 1 else n : Nat) : Int) [] ]) ∧
      (∃ c, runCycles fs (collectorAt cfg n) = some c ∧
        c.descs.failureCount = n + fs.countP (fetchFails (collectorAt cfg n)) ∧
        n ≤ c.descs.failureCount) ∧
      (∃ c, runCycles fs (NewCollector cfg) = some c ∧
        c.descs.failureCount = fs.countP (fetchFails (NewCollector cfg))) := by
  refine ⟨?_, ?_, ?_⟩
  · cases h : fetchFails (collectorAt cfg n) f with
    | true => exact ⟨_, Collect_of_failure cfg n f h, rfl, rfl, rfl⟩
    | false =>
      obtain ⟨pool, workers, _, hC⟩ := Collect_of_success cfg n f h
      exact ⟨_, hC, rfl, rfl, rfl⟩
  · exact ⟨_, runCycles_collectorAt cfg fs n, rfl, Nat.le_add_right _ _⟩
  · refine ⟨_, runCycles_collectorAt cfg fs 0, ?_⟩
    show 0 + _ = _
    rw [Nat.zero_add]
    rfl

/-- Claim C5: whatever the fetch returns, the metrics a cycle emits start with the availability
metric `up` followed by the failure counter `scrape_failures_total`, and each of
these two names occurs exactly once among them; when the fetch fails these two
metrics are all that is emitted. -/
theorem up_and_failures_exactly_once (cfg : Config) (n : Nat) (f : DataFetcher) :
    ∃ r mUp mFailures rest, Collect (collectorAt cfg n) f = some r ∧
      r.ch = mUp :: mFailures :: rest ∧
      mUp.desc = (collectorAt cfg n).descs.up ∧
      mFailures.desc = (collectorAt cfg n).descs.scrapeFailures ∧
      r.ch.countP (fun m => m.desc.fqName = BuildFQName cfg.Namespace "" "up") = 1 ∧
      r.ch.countP
        (fun m => m.desc.fqName = BuildFQName cfg.Namespace "" "scrape_failures_total") = 1 ∧
      (fetchFails (collectorAt cfg n) f = true → rest = []) := by
  have hne := BuildFQName_ne cfg.Namespace "up" "scrape_failures_total" (by decide) (by decide)
    (by decide)
  cases h : fetchFails (collectorAt cfg n) f with
  | true =>
    refine ⟨_, _, _, [], Collect_of_failure cfg n f h, rfl, rfl, rfl, ?_, ?_, fun _ => rfl⟩
    · simp [List.countP_cons, Metric.desc, collectorAt, initDescs, newFuncMetric, NewDesc,
        hne.symm]
    · simp [List.countP_cons, Metric.desc, collectorAt, initDescs, newFuncMetric, NewDesc, hne]
  | false =>
    obtain ⟨pool, workers, _, hC⟩ := Collect_of_success cfg n f h
    refine ⟨_, _, _, _, hC, rfl, rfl, rfl, ?_, ?_, fun hf => by simp at hf⟩
    · have hp := processPool_countP_name cfg n pool "up" (by decide) (by decide)
      have hw := processWorkers_countP_name cfg n workers "up" (by decide) (by decide)
        (by decide)
      simp only [List.countP_append, hp, hw]
      simp [List.countP_cons, Metric.desc, collectorAt, initDescs, newFuncMetric, NewDesc,
        hne.symm]
    · have hp := processPool_countP_name cfg n pool "scrape_failures_total" (by decide)
        (by decide)
      have hw := processWorkers_countP_name cfg n workers "scrape_failures_total" (by decide)
        (by decide) (by decide)
      simp only [List.countP_append, hp, hw]
      simp [List.countP_cons, Metric.desc, collectorAt, initDescs, newFuncMetric, NewDesc, hne]

/-- A failing fetch on a collector with failure count 3: `up` and `scrape_failures_total`
are all that is emitted. -/
theorem up_and_failures_exactly_once_witness :
    fetchFails (collectorAt exampleConfig 3)
        (fetcherReturning ⟨[], some "connection refused"⟩) = true ∧
      ∃ r mUp mFailures, Collect (collectorAt exampleConfig 3)
          (fetcherReturning ⟨[], some "connection refused"⟩) = some r ∧
        r.ch = [mUp, mFailures] ∧
        mUp.desc = (collectorAt exampleConfig 3).descs.up ∧
        mFailures.desc = (collectorAt exampleConfig 3).descs.scrapeFailures ∧
        r.ch.countP (fun m => m.desc.fqName = "phpfpm_up") = 1 ∧
        r.ch.countP (fun m => m.desc.fqName = "phpfpm_scrape_failures_total") = 1 := by
  refine ⟨by decide, ?_⟩
  obtain ⟨r, mUp, mFailures, rest, h1, h2, h3, h4, h5, h6, h7⟩ :=
    up_and_failures_exactly_once exampleConfig 3
      (fetcherReturning ⟨[], some "connection refused"⟩)
  have hrest := h7 (by decide)
  subst hrest
  exact ⟨r, mUp, mFailures, h1, h2, h3, h4, h5, h6⟩

/-- Claim C6: for every body fetched without error, `Collect` completes (`blocks[0]` exists),
takes the text before the first `******` as the pool summary and every later
segment as a worker block, and emits after the pool metrics exactly two summaries,
the lifetime summary and then the requests summary, with the `start since` and
`requests` values of the worker blocks (as the `float64` values they are observed
as); when no worker block has such a field both are emitted with no
observation. -/
theorem Collect_blocks_and_summaries (cfg : Config) (n : Nat) (f : DataFetcher)
    (h : fetchFails (collectorAt cfg n) f = false) :
    ∃ workers lifetime requests,
      Split (fetch (collectorAt cfg n) f).2.body "******".toList =
        beforeFirst "******".toList (fetch (collectorAt cfg n) f).2.body :: workers ∧
      Join "******".toList
          (beforeFirst "******".toList (fetch (collectorAt cfg n) f).2.body :: workers) =
        (fetch (collectorAt cfg n) f).2.body ∧
      Collect (collectorAt cfg n) f =
        some { collector := collectorAt cfg n
               calls := [(fetch (collectorAt cfg n) f).1]
               ch := [ .constMetric (collectorAt cfg n).descs.up .GaugeValue 1 [],
                       .constMetric (collectorAt cfg n).descs.scrapeFailures .CounterValue n [] ]
                     ++ processPool (collectorAt cfg n)
                          (beforeFirst "******".toList (fetch (collectorAt cfg n) f).2.body)
                     ++ [.summary lifetime, .summary requests] } ∧
      lifetime.desc.fqName = BuildFQName cfg.Namespace "" "workers_lifetime_summary" ∧
      requests.desc.fqName = BuildFQName cfg.Namespace "" "workers_requests_summary" ∧
      lifetime.observations = (lifetimeValues workers).map float64 ∧
      requests.observations = (requestsValues workers).map float64 ∧
      ((∀ w ∈ workers, ∀ fld ∈ fields w, fld.1 ≠ "start since" ∧ fld.1 ≠ "requests") →
        lifetime.observations = [] ∧ requests.observations = []) := by
  obtain ⟨pool, workers, hS, hC⟩ := Collect_of_success cfg n f h
  obtain ⟨rest, hrest⟩ :=
    Split_head (fetch (collectorAt cfg n) f).2.body "******".toList (by decide)
  have hpw : pool = beforeFirst "******".toList (fetch (collectorAt cfg n) f).2.body ∧
      workers = rest := by
    rw [hS] at hrest
    simpa using hrest
  obtain ⟨hp, hw⟩ := hpw
  subst hw
  have hJ := Join_Split (fetch (collectorAt cfg n) f).2.body "******".toList (by decide)
  have hW := processWorkers_eq (collectorAt cfg n) workers
  refine ⟨workers,
    (NewSummary (getMetricName (collectorAt cfg n) "workers_lifetime_summary")
      "summary of workers lifetime" summaryObjectives [("pool", "www")]).observeAll
        ((lifetimeValues workers).map float64),
    (NewSummary (getMetricName (collectorAt cfg n) "workers_requests_summary")
      "summary of requests processed by workers" summaryObjectives [("pool", "www")]).observeAll
        ((requestsValues workers).map float64), ?_, ?_, ?_, ?_, ?_, ?_, ?_, ?_⟩
  · rw [hS, hp]
  · rw [← hp, ← hS, hJ]
  · rw [hC, hW, hp]
  · simp [Summary.observeAll, NewSummary, NewDesc, getMetricName, BuildFQName_bare, collectorAt]
  · simp [Summary.observeAll, NewSummary, NewDesc, getMetricName, BuildFQName_bare, collectorAt]
  · simp [Summary.observeAll, NewSummary]
  · simp [Summary.observeAll, NewSummary]
  · intro hno
    constructor
    · simp only [Summary.observeAll, NewSummary, lifetimeValues, valuesOf, List.nil_append,
        List.map_eq_nil_iff, List.filter_eq_nil_iff]
      intro fld hfld
      obtain ⟨w, hw, hf⟩ := List.mem_flatMap.mp hfld
      simpa using (hno w hw fld hf).1
    · simp only [Summary.observeAll, NewSummary, requestsValues, valuesOf, List.nil_append,
        List.map_eq_nil_iff, List.filter_eq_nil_iff]
      intro fld hfld
      obtain ⟨w, hw, hf⟩ := List.mem_flatMap.mp hfld
      simpa using (hno w hw fld hf).2

/-- The body `summary******`, with nothing after the delimiter: the pool summary is
`summary`, the one worker block is empty, and both summaries are emitted without
an observation. -/
theorem Collect_blocks_and_summaries_witness :
    fetchFails (collectorAt exampleConfig 0)
        (fetcherReturning ⟨"summary******".toList, none⟩) = false ∧
      ∃ workers lifetime requests,
        Split "summary******".toList "******".toList = "summary".toList :: workers ∧
        Join "******".toList ("summary".toList :: workers) = "summary******".toList ∧
        Collect (collectorAt exampleConfig 0)
            (fetcherReturning ⟨"summary******".toList, none⟩) =
          some { collector := collectorAt exampleConfig 0
                 calls := [.GetDataFastCgi (some "tcp://127.0.0.1:9000/status")]
                 ch := [ .constMetric (collectorAt exampleConfig 0).descs.up .GaugeValue 1 [],
                         .constMetric (collectorAt exampleConfig 0).descs.scrapeFailures
                           .CounterValue 0 [] ]
                       ++ processPool (collectorAt exampleConfig 0) "summary".toList
                       ++ [.summary lifetime, .summary requests] } ∧
        lifetime.desc.fqName = "phpfpm_workers_lifetime_summary" ∧
        requests.desc.fqName = "phpfpm_workers_requests_summary" ∧
        lifetime.observations = (lifetimeValues workers).map float64 ∧
        requests.observations = (requestsValues workers).map float64 ∧
        ((∀ w ∈ workers, ∀ fld ∈ fields w, fld.1 ≠ "start since" ∧ fld.1 ≠ "requests") →
          lifetime.observations = [] ∧ requests.observations = []) :=
  ⟨by decide,
    Collect_blocks_and_summaries exampleConfig 0
      (fetcherReturning ⟨"summary******".toList, none⟩) (by decide)⟩

/-- Claim C7: every cycle makes exactly one fetch, the one its configuration names:
`GetDataFastCgi` at the FastCGI endpoint when one is configured, whether or not
an HTTP endpoint is configured as well, and `GetDataHttp` at the HTTP endpoint
otherwise.  What that one call returns decides the cycle: `up`, the failure
count (a failure counts once: no second attempt) and whether anything follows
the first two metrics; the cycle is the one of a fetcher that returns that result
everywhere, and it does not change when the other method is replaced. -/
theorem one_fetch_per_cycle (cfg : Config) (n : Nat) (f : DataFetcher)
    (g : Option URL → FetchResult) (u : URL) :
    (∃ r, Collect (collectorAt cfg n) f = some r ∧
      r.calls.length = 1 ∧
      r.calls =
        [ match cfg.FcgiEndpoint with
          | some u => FetchCall.GetDataFastCgi (some u)
          | none => FetchCall.GetDataHttp cfg.HttpEndpoint ] ∧
      r.ch.head? = some (.constMetric (collectorAt cfg n).descs.up .GaugeValue
        (if (configuredFetch cfg f).err.isSome then 0 else 1) []) ∧
      r.collector.descs.failureCount =
        n + (if (configuredFetch cfg f).err.isSome then 1 else 0) ∧
      (r.ch.length = 2 ↔ (configuredFetch cfg f).err.isSome = true)) ∧
      Collect (collectorAt cfg n) f =
        Collect (collectorAt cfg n) (fetcherReturning (configuredFetch cfg f)) ∧
      Collect (collectorAt { cfg with FcgiEndpoint := some u } n) f =
        Collect (collectorAt { cfg with FcgiEndpoint := some u } n)
          { f with GetDataHttp := g } ∧
      Collect (collectorAt { cfg with FcgiEndpoint := none } n) f =
        Collect (collectorAt { cfg with FcgiEndpoint := none } n)
          { f with GetDataFastCgi := g } := by
  have hres : (fetch (collectorAt cfg n) f).2 = configuredFetch cfg f := by
    unfold fetch configuredFetch
    cases h : cfg.FcgiEndpoint <;> simp [collectorAt, h]
  refine ⟨?_, ?_, ?_, ?_⟩
  · have hcalls : (fetch (collectorAt cfg n) f).1 =
        (match cfg.FcgiEndpoint with
          | some u => FetchCall.GetDataFastCgi (some u)
          | none => FetchCall.GetDataHttp cfg.HttpEndpoint) := by
      unfold fetch
      cases h : cfg.FcgiEndpoint <;> simp [collectorAt, h]
    cases h : fetchFails (collectorAt cfg n) f with
    | true =>
      have herr : (configuredFetch cfg f).err.isSome = true := by
        rw [← hres]; exact h
      refine ⟨_, Collect_of_failure cfg n f h, rfl, ?_, ?_, ?_, ?_⟩
      · simp only [hcalls]
      · simp [herr]
      · simp [herr, collectorAt]
      · simp [herr]
    | false =>
      have herr : (configuredFetch cfg f).err.isSome = false := by
        rw [← hres]; exact h
      obtain ⟨pool, workers, _, hC⟩ := Collect_of_success cfg n f h
      refine ⟨_, hC, rfl, ?_, ?_, ?_, ?_⟩
      · simp only [hcalls]
      · simp [herr]
      · simp [herr, collectorAt]
      · simp [herr, processWorkers_length]
  · apply Collect_congr
    apply Prod.ext
    · exact fetch_fst cfg n _ _
    · rw [hres, fetch_fetcherReturning]
  · apply Collect_congr
    rfl
  · apply Collect_congr
    rfl

/-- Claim C8, refuted as stated: for the report `accepted conn: 12******34`, the value of the
line of which contains the delimiter, `Collect` does emit a metric for the key of
the line: `accepted_connections_total` with value 12. -/
theorem delimiter_in_value_counterexample :
    ∃ r, Collect (collectorAt exampleConfig 0)
        (fetcherReturning ⟨"accepted conn: 12******34".toList, none⟩) = some r ∧
      Metric.constMetric (collectorAt exampleConfig 0).descs.acceptedConn .CounterValue 12 []
        ∈ r.ch ∧
      r.ch.map Metric.observation =
        [ some ⟨"phpfpm_up", .GaugeValue, [], 1⟩,
          some ⟨"phpfpm_scrape_failures_total", .CounterValue, [], 0⟩,
          some ⟨"phpfpm_accepted_connections_total", .CounterValue, [], 12⟩,
          none, none ] :=
  ⟨_, rfl, by decide, by decide⟩

/-- Claim C8, amended: for every status report that contains the delimiter, in particular
one in which the value of a pool-summary line contains it, `Collect` raises no
error and cuts the report at its first delimiter before it looks at any line: the
pool summary is the text before that first delimiter (the text before the given
delimiter when that one is the first), so that the line is not skipped but ends
where the delimiter starts and is parsed as such, and the text after the
delimiter is split into worker blocks. -/
theorem delimiter_ends_pool_summary (cfg : Config) (n : Nat) (pool rest : GoString) :
    ∃ after,
      pool ++ "******".toList ++ rest =
        beforeFirst "******".toList (pool ++ "******".toList ++ rest) ++ "******".toList ++
          after ∧
      beforeFirst "******".toList (pool ++ "******".toList ++ rest) <+: pool ∧
      Collect (collectorAt cfg n) (fetcherReturning ⟨pool ++ "******".toList ++ rest, none⟩) =
        some { collector := collectorAt cfg n
               calls := [(fetch (collectorAt cfg n)
                 (fetcherReturning ⟨pool ++ "******".toList ++ rest, none⟩)).1]
               ch := [ .constMetric (collectorAt cfg n).descs.up .GaugeValue 1 [],
                       .constMetric (collectorAt cfg n).descs.scrapeFailures .CounterValue n [] ]
                     ++ processPool (collectorAt cfg n)
                          (beforeFirst "******".toList (pool ++ "******".toList ++ rest))
                     ++ processWorkers (collectorAt cfg n) (Split after "******".toList) } ∧
      (Index (pool ++ "******".toList ++ rest) "******".toList = some pool.length →
        beforeFirst "******".toList (pool ++ "******".toList ++ rest) = pool ∧ after = rest) := by
  obtain ⟨m, hm, hle⟩ := Index_append_le "******".toList rest pool
  have hbf := beforeFirst_of_Index_some hm
  have hsplit := Split_of_Index_some (by decide) hm
  have hres := fetch_fetcherReturning cfg n ⟨pool ++ "******".toList ++ rest, none⟩
  have hf : fetchFails (collectorAt cfg n)
      (fetcherReturning ⟨pool ++ "******".toList ++ rest, none⟩) = false := by
    unfold fetchFails
    rw [hres]
    rfl
  obtain ⟨p, workers, hS, hC⟩ := Collect_of_success cfg n _ hf
  rw [hres] at hS
  simp only at hS
  rw [hsplit] at hS
  simp only [List.cons.injEq] at hS
  refine ⟨List.drop (m + "******".toList.length) (pool ++ "******".toList ++ rest), ?_, ?_, ?_, ?_⟩
  · rw [hbf]
    exact Index_some_eq _ _ _ hm
  · rw [hbf, List.append_assoc, List.take_append_of_le_length hle]
    exact List.take_prefix _ _
  · rw [hC, ← hS.1, ← hS.2, hbf]
  · intro hfirst
    rw [hm] at hfirst
    simp only [Option.some.injEq] at hfirst
    subst hfirst
    constructor
    · rw [hbf]
      simp
    · simp

/-- The report `pool: w*w\naccepted conn: 12******34`: the delimiter in the value is the
first of the report, so the pool summary is `pool: w*w\naccepted conn: 12`, which
emits `accepted_connections_total` = 12, and `34` is the one worker block. -/
theorem delimiter_ends_pool_summary_witness :
    Index ("pool: w*w\naccepted conn: 12".toList ++ "******".toList ++ "34".toList)
        "******".toList = some "pool: w*w\naccepted conn: 12".toList.length ∧
      ∃ after,
        beforeFirst "******".toList
            ("pool: w*w\naccepted conn: 12".toList ++ "******".toList ++ "34".toList) =
          "pool: w*w\naccepted conn: 12".toList ∧
        after = "34".toList ∧
        Collect (collectorAt exampleConfig 0)
            (fetcherReturning
              ⟨"pool: w*w\naccepted conn: 12".toList ++ "******".toList ++ "34".toList, none⟩) =
          some { collector := collectorAt exampleConfig 0
                 calls := [.GetDataFastCgi (some "tcp://127.0.0.1:9000/status")]
                 ch := [ .constMetric (collectorAt exampleConfig 0).descs.up .GaugeValue 1 [],
                         .constMetric (collectorAt exampleConfig 0).descs.scrapeFailures
                           .CounterValue 0 [] ]
                       ++ processPool (collectorAt exampleConfig 0)
                            (beforeFirst "******".toList
                              ("pool: w*w\naccepted conn: 12".toList ++ "******".toList ++
                                "34".toList))
                       ++ processWorkers (collectorAt exampleConfig 0)
                            (Split after "******".toList) } ∧
        processPool (collectorAt exampleConfig 0) "pool: w*w\naccepted conn: 12".toList =
          [ .constMetric (collectorAt exampleConfig 0).descs.acceptedConn .CounterValue 12 [] ] := by
  refine ⟨by decide, ?_⟩
  obtain ⟨after, _, _, hC, hfirst⟩ :=
    delimiter_ends_pool_summary exampleConfig 0 "pool: w*w\naccepted conn: 12".toList
      "34".toList
  obtain ⟨hb, ha⟩ := hfirst (by decide)
  exact ⟨after, hb, ha, hC, by decide⟩

/-- Claim C9, refuted as stated: two failing cycles that run concurrently on a collector with
failure count 0 can both read 0 before either writes; both then write 1, and the
count ends at 1 instead of 2. -/
theorem lost_increment_counterexample :
    allDone (runSchedule (startCycles 0 2) [0, 1, 0, 1]) = true ∧
      (runSchedule (startCycles 0 2) [0, 1, 0, 1]).failureCount = 1 ∧
      (runSchedule (startCycles 0 2) [0, 1, 0, 1]).failureCount ≠ 0 + 2 := by
  decide

/-- Claim C9, amended: `count` failing cycles that run one after another leave the failure
count increased by exactly `count`, in the interleaving model and for `Collect`
itself; when `count ≥ 1` failing cycles run concurrently, in whatever
interleaving, the count ends increased by at least 1 and at most `count`. -/
theorem concurrent_failures_at_most_count (cfg : Config) (e : String) (n count : Nat)
    (schedule : List Nat) (hcount : 0 < count)
    (hdone : allDone (runSchedule (startCycles n count) schedule) = true) :
    n + 1 ≤ (runSchedule (startCycles n count) schedule).failureCount ∧
      (runSchedule (startCycles n count) schedule).failureCount ≤ n + count ∧
      allDone (runSchedule (startCycles n count) (sequentialFrom 0 count)) = true ∧
      (runSchedule (startCycles n count) (sequentialFrom 0 count)).failureCount = n + count ∧
      (∃ c, runCycles (List.replicate count (fetcherReturning ⟨[], some e⟩))
          (collectorAt cfg n) = some c ∧ c.descs.failureCount = n + count) := by
  have hb := concurrent_bounds n count schedule hcount hdone
  have hseq := run_sequentialFrom count n []
  simp only [List.nil_append, List.length_nil] at hseq
  have hstart : startCycles n count = ⟨n, List.replicate count .ready⟩ := rfl
  refine ⟨hb.1, hb.2, ?_, ?_, ?_⟩
  · rw [hstart, hseq]
    simp [allDone]
  · rw [hstart, hseq]
  · refine ⟨_, runCycles_collectorAt cfg _ n, ?_⟩
    have hf : fetchFails (collectorAt cfg n) (fetcherReturning ⟨[], some e⟩) = true := by
      unfold fetchFails
      rw [fetch_fetcherReturning]
      rfl
    show n + List.countP (fetchFails (collectorAt cfg n)) _ = n + count
    rw [List.countP_replicate, if_pos hf]

/-- Two concurrent failing cycles in the interleaving read, read, write, write: the count
ends increased by 1, within the bounds; one after another they add 2. -/
theorem concurrent_failures_at_most_count_witness :
    0 < 2 ∧ allDone (runSchedule (startCycles 0 2) [0, 1, 0, 1]) = true ∧
      (0 + 1 ≤ (runSchedule (startCycles 0 2) [0, 1, 0, 1]).failureCount ∧
        (runSchedule (startCycles 0 2) [0, 1, 0, 1]).failureCount ≤ 0 + 2 ∧
        allDone (runSchedule (startCycles 0 2) (sequentialFrom 0 2)) = true ∧
        (runSchedule (startCycles 0 2) (sequentialFrom 0 2)).failureCount = 0 + 2 ∧
        (∃ c, runCycles (List.replicate 2 (fetcherReturning ⟨[], some "connection refused"⟩))
            (collectorAt exampleConfig 0) = some c ∧ c.descs.failureCount = 0 + 2)) :=
  ⟨by decide, by decide,
    concurrent_failures_at_most_count exampleConfig "connection refused" 0 2 [0, 1, 0, 1]
      (by decide) (by decide)⟩

/-- Claim C10, evaluated on the code: after any successful fetch the constant metrics of the
cycle carry descriptors that `Describe` enumerates, but the two summaries do not:
`processWorkers` builds them with help texts of its own (`summary of workers
lifetime`, `summary of requests processed by workers`) and the constant label
`pool=www`, not with the descriptors `lifetimeSummary` and `requestsSummary` that
`Describe` sends. -/
theorem summaries_carry_undescribed_descriptors (cfg : Config) (n : Nat) (body : GoString) :
    ∃ r lifetime requests rest,
      Collect (collectorAt cfg n) (fetcherReturning ⟨body, none⟩) = some r ∧
      r.ch = rest ++ [.summary lifetime, .summary requests] ∧
      (∀ m ∈ rest, m.desc ∈ Describe (collectorAt cfg n)) ∧
      lifetime.desc.fqName = (collectorAt cfg n).descs.lifetimeSummary.fqName ∧
      requests.desc.fqName = (collectorAt cfg n).descs.requestsSummary.fqName ∧
      lifetime.desc.help ≠ (collectorAt cfg n).descs.lifetimeSummary.help ∧
      requests.desc.help ≠ (collectorAt cfg n).descs.requestsSummary.help ∧
      lifetime.desc ∉ Describe (collectorAt cfg n) ∧
      requests.desc ∉ Describe (collectorAt cfg n) := by
  have hres := fetch_fetcherReturning cfg n ⟨body, none⟩
  have hf : fetchFails (collectorAt cfg n) (fetcherReturning ⟨body, none⟩) = false := by
    unfold fetchFails
    rw [hres]
    rfl
  obtain ⟨pool, workers, _, hC⟩ := Collect_of_success cfg n _ hf
  have hW := processWorkers_eq (collectorAt cfg n) workers
  have hhelp : ∀ d ∈ Describe (collectorAt cfg n),
      d.help ≠ "summary of workers lifetime" ∧
        d.help ≠ "summary of requests processed by workers" := by
    intro d hd
    simp only [Describe, collectorAt, initDescs, newFuncMetric, NewDesc, List.mem_cons,
      List.mem_singleton, List.not_mem_nil, or_false] at hd
    rcases hd with h | h | h | h | h | h | h | h | h | h | h | h <;> subst h <;>
      simp
  refine ⟨_,
    (NewSummary (getMetricName (collectorAt cfg n) "workers_lifetime_summary")
      "summary of workers lifetime" summaryObjectives [("pool", "www")]).observeAll
        ((lifetimeValues workers).map float64),
    (NewSummary (getMetricName (collectorAt cfg n) "workers_requests_summary")
      "summary of requests processed by workers" summaryObjectives [("pool", "www")]).observeAll
        ((requestsValues workers).map float64),
    [ .constMetric (collectorAt cfg n).descs.up .GaugeValue 1 [],
      .constMetric (collectorAt cfg n).descs.scrapeFailures .CounterValue n [] ]
      ++ processPool (collectorAt cfg n) pool,
    hC, ?_, ?_, ?_, ?_, ?_, ?_, ?_, ?_⟩
  · rw [hW]
  · intro m hm
    simp only [List.mem_append, List.mem_cons, List.mem_singleton, List.not_mem_nil,
      or_false] at hm
    rcases hm with (h | h) | h
    · subst h; simp [Metric.desc, Describe]
    · subst h; simp [Metric.desc, Describe]
    · exact processPool_described cfg n pool m h
  · simp [Summary.observeAll, NewSummary, NewDesc, getMetricName, BuildFQName_bare, collectorAt,
      initDescs, newFuncMetric]
  · simp [Summary.observeAll, NewSummary, NewDesc, getMetricName, BuildFQName_bare, collectorAt,
      initDescs, newFuncMetric]
  · simp [Summary.observeAll, NewSummary, NewDesc, collectorAt, initDescs, newFuncMetric]
  · simp [Summary.observeAll, NewSummary, NewDesc, collectorAt, initDescs, newFuncMetric]
  · intro hmem
    exact (hhelp _ hmem).1 rfl
  · intro hmem
    exact (hhelp _ hmem).2 rfl

end PhpFpmExporter
